import Mathlib

/-
Verification of the pairing-token resolution and device-pairing logic of the
nutrition mini-app (PairingPage component).  The definitions below are a
shallow embedding of that component and of the browser primitives it calls
(String.prototype.trim, URLSearchParams, JSON.parse, atob, the axios response
contract).  Machine strings are modelled as Lean strings; JavaScript
null/undefined results are modelled with Option.
-/

namespace Pairing

/-- The degenerate marker produced by stringifying a JavaScript object. -/
def marker : String := "[object Object]"

/-- JavaScript whitespace recognised by String.prototype.trim (ASCII part;
the inputs handled by the component are ASCII). -/
def isJsWs (c : Char) : Bool :=
  c = ' ' || c = '\t' || c = '\n' || c = '\r' || c = '\x0b' || c = '\x0c'

/-- String.prototype.trim on a character list. -/
def jsTrimL (l : List Char) : List Char :=
  ((l.dropWhile isJsWs).reverse.dropWhile isJsWs).reverse

/-- String.prototype.trim. -/
def jsTrim (s : String) : String := ⟨jsTrimL s.data⟩

/-- The replace of the leading and trailing quote runs, regex form
caret-quote-plus pipe quote-plus-dollar, used by acceptIfLooksLikeToken. -/
def stripQuotesL (l : List Char) : List Char :=
  ((l.dropWhile (· = '"')).reverse.dropWhile (· = '"')).reverse

/-- Strip wrapping double quotes from both ends of a string. -/
def stripQuotes (s : String) : String := ⟨stripQuotesL s.data⟩

/-- Membership in the character class of the token regex:
uppercase and lowercase ASCII letters, digits, underscore, dash. -/
def isTokenChar (c : Char) : Bool :=
  c.isAlpha || c.isDigit || c = '_' || c = '-'

/-- The token-shape test of the source, the regex of line 30 of the
component: six to 128 characters, alphanumerics, dash or underscore. -/
def tokenShape (s : String) : Bool :=
  s.data.all isTokenChar && decide (6 ≤ s.data.length) && decide (s.data.length ≤ 128)

/-- Whether the first list starts with the second (list version,
used by the substring test below). -/
def listStarts : List Char → List Char → Bool
  | _, [] => true
  | [], _ :: _ => false
  | a :: as, b :: bs => a = b && listStarts as bs

/-- String.prototype.includes: the needle occurs somewhere in the haystack. -/
def containsSub (hay needle : List Char) : Bool :=
  match hay with
  | [] => listStarts [] needle
  | _ :: t => listStarts hay needle || containsSub t needle

/-- JavaScript truthiness of a string-or-null value: null and the empty
string are falsy. -/
def truthyS : Option String → Bool
  | none => false
  | some s => s ≠ ""

/-- The or-else of JavaScript on string-or-null values: a || b. -/
def jsOr (a b : Option String) : Option String :=
  if truthyS a then a else b

/-- Hex digit value. -/
def hexVal (c : Char) : Option Nat :=
  if '0' ≤ c ∧ c ≤ '9' then some (c.toNat - 48)
  else if 'a' ≤ c ∧ c ≤ 'f' then some (c.toNat - 97 + 10)
  else if 'A' ≤ c ∧ c ≤ 'F' then some (c.toNat - 65 + 10)
  else none

/-- Percent-decoding of application/x-www-form-urlencoded values:
plus becomes a space, a percent followed by two hex digits becomes
that byte, anything else is kept as-is (URLSearchParams never throws). -/
def percentDecodeF : Nat → List Char → List Char
  | 0, l => l
  | _ + 1, [] => []
  | f + 1, '+' :: rest => ' ' :: percentDecodeF f rest
  | f + 1, '%' :: rest =>
    match rest with
    | h1 :: h2 :: rest2 =>
      match hexVal h1, hexVal h2 with
      | some v1, some v2 => Char.ofNat (16 * v1 + v2) :: percentDecodeF f rest2
      | _, _ => '%' :: percentDecodeF f rest
    | _ => '%' :: percentDecodeF f rest
  | f + 1, c :: rest => c :: percentDecodeF f rest

/-- Percent-decoding entry point; the fuel exceeds the input length and
every step consumes at least one character, so it never runs out. -/
def percentDecode (l : List Char) : List Char := percentDecodeF (l.length + 1) l

/-- Split a query string on ampersands. -/
def splitAmpGo : List Char → List Char → List (List Char)
  | [], acc => [acc.reverse]
  | '&' :: t, acc => acc.reverse :: splitAmpGo t []
  | c :: t, acc => splitAmpGo t (c :: acc)

/-- One key/value pair of a query string: the part before the first
equals sign is the key, the rest is the value, both percent-decoded. -/
def qsPair (piece : List Char) : String × String :=
  let key := piece.takeWhile (· ≠ '=')
  let val := (piece.dropWhile (· ≠ '=')).drop 1
  (⟨percentDecode key⟩, ⟨percentDecode val⟩)

/-- The URLSearchParams constructor on a string: strips one leading
question mark, splits on ampersands, drops empty pieces, decodes pairs. -/
def parseQS (s : String) : List (String × String) :=
  let l := if s.data.head? = some '?' then s.data.drop 1 else s.data
  (splitAmpGo l []).filterMap (fun p => if p = [] then none else some (qsPair p))

/-- URLSearchParams.get: the value of the first pair with the given key,
null when absent. -/
def qsGet (ps : List (String × String)) (k : String) : Option String :=
  (ps.find? (fun p => p.1 = k)).map (·.2)

/-- Characters serialised verbatim by the form-urlencoded serialiser. -/
def isFormSafe (c : Char) : Bool :=
  c.isAlpha || c.isDigit || c = '*' || c = '-' || c = '.' || c = '_'

/-- Uppercase hex digit of a value below 16. -/
def hexDigit (n : Nat) : Char :=
  if n < 10 then Char.ofNat (48 + n) else Char.ofNat (55 + n)

/-- Percent-encoding used by the form-urlencoded serialiser. -/
def formEncodeChar (c : Char) : List Char :=
  if isFormSafe c then [c]
  else if c = ' ' then ['+']
  else ['%', hexDigit (c.toNat / 16 % 16), hexDigit (c.toNat % 16)]

/-- URLSearchParams.toString: serialise the pairs back to a query string. -/
def qsToString (ps : List (String × String)) : String :=
  ⟨(ps.map (fun p =>
      (p.1.data.flatMap formEncodeChar) ++ '=' :: p.2.data.flatMap formEncodeChar)).intersperse ['&'] |>.flatten⟩

/-- Characters allowed in a URL scheme after the first letter. -/
def isSchemeChar (c : Char) : Bool :=
  c.isAlpha || c.isDigit || c = '+' || c = '-' || c = '.'

/-- Model of the WHATWG URL constructor, restricted to what the component
reads from it: the query part.  A string parses as a URL only when it
starts with a scheme (a letter followed by scheme characters and a colon);
the query is everything after the first question mark up to a hash.
The constructor throwing is modelled by none. -/
def tryURLQuery (s : String) : Option String :=
  let pre := s.data.takeWhile (· ≠ ':')
  if pre.length < s.data.length ∧ pre ≠ [] ∧
      (pre.headD ' ').isAlpha ∧ pre.all isSchemeChar then
    some ⟨((s.data.dropWhile (· ≠ '?')).drop 1).takeWhile (· ≠ '#')⟩
  else none

/-! JSON values and JSON.parse, as used by the component.  Numbers are kept
as a decimal mantissa and a power-of-ten exponent, which is enough to decide
JavaScript truthiness (zero is falsy). -/

/-- JSON values. -/
inductive Json where
  | null
  | bool (b : Bool)
  | num (m : Int) (e : Int)
  | str (s : String)
  | arr (xs : List Json)
  | obj (kvs : List (String × Json))

/-- JavaScript truthiness of a JSON value. -/
def jsTruthyJ : Json → Bool
  | .null => false
  | .bool b => b
  | .num m _ => m ≠ 0
  | .str s => s ≠ ""
  | .arr _ => true
  | .obj _ => true

/-- Property access on a parsed JSON value: objects yield the last binding
of the key (JSON.parse keeps the last duplicate); every other value has no
own properties, so the access yields undefined (none).  Access on null
throws and is handled at each use site. -/
def jget (j : Json) (k : String) : Option Json :=
  match j with
  | .obj kvs => kvs.foldl (fun acc p => if p.1 = k then some p.2 else acc) none
  | _ => none

/-- JSON whitespace. -/
def isJsonWs (c : Char) : Bool :=
  c = ' ' || c = '\t' || c = '\n' || c = '\r'

/-- Drop leading JSON whitespace. -/
def skipWsL (l : List Char) : List Char := l.dropWhile isJsonWs

/-- Parse the body of a JSON string literal (the opening quote is already
consumed); stops at the closing quote, handles the escape sequences of the
JSON grammar, rejects raw control characters. -/
def pStrGo (acc : List Char) : List Char → Option (String × List Char)
  | [] => none
  | '"' :: rest => some (⟨acc.reverse⟩, rest)
  | '\\' :: rest =>
    match rest with
    | [] => none
    | c :: rest1 =>
      match c with
      | '"' => pStrGo ('"' :: acc) rest1
      | '\\' => pStrGo ('\\' :: acc) rest1
      | '/' => pStrGo ('/' :: acc) rest1
      | 'b' => pStrGo ('\x08' :: acc) rest1
      | 'f' => pStrGo ('\x0c' :: acc) rest1
      | 'n' => pStrGo ('\n' :: acc) rest1
      | 'r' => pStrGo ('\r' :: acc) rest1
      | 't' => pStrGo ('\t' :: acc) rest1
      | 'u' =>
        match rest1 with
        | h1 :: h2 :: h3 :: h4 :: rest2 =>
          match hexVal h1, hexVal h2, hexVal h3, hexVal h4 with
          | some v1, some v2, some v3, some v4 =>
            pStrGo (Char.ofNat (4096 * v1 + 256 * v2 + 16 * v3 + v4) :: acc) rest2
          | _, _, _, _ => none
        | _ => none
      | _ => none
  | c :: rest => if c.toNat < 32 then none else pStrGo (c :: acc) rest

/-- Parse a JSON string literal body. -/
def pStr (l : List Char) : Option (String × List Char) := pStrGo [] l

/-- Digits of an unsigned decimal number. -/
def pDigits (l : List Char) : List Char × List Char :=
  (l.takeWhile Char.isDigit, l.dropWhile Char.isDigit)

/-- Numeric value of a digit list. -/
def digitsVal (ds : List Char) : Nat :=
  ds.foldl (fun acc c => 10 * acc + (c.toNat - 48)) 0

/-- Parse a JSON number per the JSON grammar (optional minus, integer part
without leading zeros, optional fraction, optional exponent). -/
def pNum (l : List Char) : Option (Json × List Char) :=
  let (neg, l1) := match l with
    | '-' :: t => (true, t)
    | _ => (false, l)
  match l1 with
  | [] => none
  | c :: _ =>
    if ¬ c.isDigit then none
    else
      let (ds, l2) := pDigits l1
      if ds.length > 1 ∧ ds.headD '0' = '0' then none
      else
        let (fds, l3) := match l2 with
          | '.' :: t =>
            let (fs, t2) := pDigits t
            (fs, t2)
          | _ => ([], l2)
        if l2.head? = some '.' ∧ fds = [] then none
        else
          let (expOk, expVal, l4) := match l3 with
            | 'e' :: t | 'E' :: t =>
              let (esign, t1) := match t with
                | '+' :: u => ((1 : Int), u)
                | '-' :: u => ((-1 : Int), u)
                | _ => ((1 : Int), t)
              let (es, t2) := pDigits t1
              if es = [] then (false, (0 : Int), t2)
              else (true, esign * (digitsVal es : Int), t2)
            | _ => (true, (0 : Int), l3)
          if ¬ expOk then none
          else
            let m : Int := (digitsVal (ds ++ fds) : Int)
            let m := if neg then -m else m
            some (.num m (expVal - (fds.length : Int)), l4)

mutual

/-- Recursive-descent JSON value parser with fuel; fuel is spent on each
nesting step, and the top-level call supplies more fuel than the input
length, which every nesting step strictly consumes. -/
def pVal : Nat → List Char → Option (Json × List Char)
  | 0, _ => none
  | f + 1, l =>
    match skipWsL l with
    | '\x7b' :: rest =>
      match skipWsL rest with
      | '\x7d' :: r2 => some (.obj [], r2)
      | r2 => (pMembers f r2).map (fun p => (.obj p.1, p.2))
    | '[' :: rest =>
      match skipWsL rest with
      | ']' :: r2 => some (.arr [], r2)
      | r2 => (pItems f r2).map (fun p => (.arr p.1, p.2))
    | '"' :: rest => (pStr rest).map (fun p => (.str p.1, p.2))
    | 't' :: 'r' :: 'u' :: 'e' :: r => some (.bool true, r)
    | 'f' :: 'a' :: 'l' :: 's' :: 'e' :: r => some (.bool false, r)
    | 'n' :: 'u' :: 'l' :: 'l' :: r => some (.null, r)
    | l2 => pNum l2

/-- Parse the members of a JSON object after the opening brace. -/
def pMembers : Nat → List Char → Option (List (String × Json) × List Char)
  | 0, _ => none
  | f + 1, l =>
    match skipWsL l with
    | '"' :: rest =>
      match pStr rest with
      | some (k, r2) =>
        match skipWsL r2 with
        | ':' :: r3 =>
          match pVal f r3 with
          | some (v, r4) =>
            match skipWsL r4 with
            | ',' :: r5 => (pMembers f r5).map (fun p => ((k, v) :: p.1, p.2))
            | '\x7d' :: r5 => some ([(k, v)], r5)
            | _ => none
          | none => none
        | _ => none
      | none => none
    | _ => none

/-- Parse the items of a JSON array after the opening bracket. -/
def pItems : Nat → List Char → Option (List Json × List Char)
  | 0, _ => none
  | f + 1, l =>
    match pVal f l with
    | some (v, r) =>
      match skipWsL r with
      | ',' :: r2 => (pItems f r2).map (fun p => (v :: p.1, p.2))
      | ']' :: r2 => some ([v], r2)
      | _ => none
    | none => none

end

/-- JSON.parse: parse one value and require only whitespace after it;
a parse failure (JSON.parse throwing) is none. -/
def jsonParse (s : String) : Option Json :=
  match pVal (s.data.length + 1) s.data with
  | some (j, rest) => if skipWsL rest = [] then some j else none
  | none => none

/-! Base64, modelling the btoa and atob of the host (forgiving-base64). -/

/-- Index of a character in the base64 alphabet. -/
def b64idx (c : Char) : Option Nat :=
  if 'A' ≤ c ∧ c ≤ 'Z' then some (c.toNat - 65)
  else if 'a' ≤ c ∧ c ≤ 'z' then some (c.toNat - 97 + 26)
  else if '0' ≤ c ∧ c ≤ '9' then some (c.toNat - 48 + 52)
  else if c = '+' then some 62
  else if c = '/' then some 63
  else none

/-- Character of a base64 digit. -/
def b64ch (n : Nat) : Char :=
  if n < 26 then Char.ofNat (65 + n)
  else if n < 52 then Char.ofNat (97 + n - 26)
  else if n < 62 then Char.ofNat (48 + n - 52)
  else if n = 62 then '+'
  else '/'

/-- Base64 encoding of a byte list, without padding. -/
def btoaCore : List Nat → List Char
  | [] => []
  | [a] => [b64ch (a / 4), b64ch (a % 4 * 16)]
  | [a, b] => [b64ch (a / 4), b64ch (a % 4 * 16 + b / 16), b64ch (b % 16 * 4)]
  | a :: b :: c :: rest =>
    b64ch (a / 4) :: b64ch (a % 4 * 16 + b / 16) ::
      b64ch (b % 16 * 4 + c / 64) :: b64ch (c % 64) :: btoaCore rest

/-- The padding btoa appends. -/
def btoaPad (n : Nat) : List Char :=
  match n % 3 with
  | 1 => ['=', '=']
  | 2 => ['=']
  | _ => []

/-- btoa on a byte list. -/
def btoaBytes (bs : List Nat) : List Char := btoaCore bs ++ btoaPad bs.length

/-- btoa on a string of byte-sized characters (the component only passes
ASCII data to it). -/
def btoaStr (s : String) : String := ⟨btoaBytes (s.data.map Char.toNat)⟩

/-- Decode base64 digits in groups of four, final group of two or three
digits allowed (leftover bits discarded, as forgiving-base64 does). -/
def b64core : List Char → Option (List Nat)
  | [] => some []
  | [c1, c2] => do
    let i1 ← b64idx c1
    let i2 ← b64idx c2
    pure [i1 * 4 + i2 / 16]
  | [c1, c2, c3] => do
    let i1 ← b64idx c1
    let i2 ← b64idx c2
    let i3 ← b64idx c3
    pure [i1 * 4 + i2 / 16, i2 % 16 * 16 + i3 / 4]
  | c1 :: c2 :: c3 :: c4 :: rest => do
    let i1 ← b64idx c1
    let i2 ← b64idx c2
    let i3 ← b64idx c3
    let i4 ← b64idx c4
    let tl ← b64core rest
    pure ((i1 * 4 + i2 / 16) :: (i2 % 16 * 16 + i3 / 4) :: (i3 % 4 * 64 + i4) :: tl)
  | _ => none

/-- ASCII whitespace stripped by forgiving-base64. -/
def isB64Ws (c : Char) : Bool :=
  c = ' ' || c = '\t' || c = '\n' || c = '\x0c' || c = '\r'

/-- Remove up to two trailing equals signs. -/
def dropTrailingEq (l : List Char) : List Char :=
  match l.reverse with
  | '=' :: '=' :: t => t.reverse
  | '=' :: t => t.reverse
  | _ => l

/-- atob per forgiving-base64: strip ASCII whitespace, strip the padding
when the length is a multiple of four, reject a leftover length of one,
then decode; any other defect (a character outside the alphabet, a
misplaced equals sign) makes atob throw, modelled by none. -/
def atobBytes (l0 : List Char) : Option (List Nat) :=
  let l := l0.filter (fun c => ¬ isB64Ws c)
  let l1 := if l.length % 4 = 0 then dropTrailingEq l else l
  if l1.length % 4 = 1 then none else b64core l1

/-- atob on strings. -/
def atobStr (s : String) : Option String :=
  (atobBytes s.data).map (fun bs => ⟨bs.map Char.ofNat⟩)

/-! The token normalizer (normalizePairingToken and its inner helpers) and
the resolver (resolvePairingToken), lines 22-125 of the component. -/

/-- acceptIfLooksLikeToken, lines 25-32: trim, strip wrapping quotes,
reject the empty string and the stringified-object marker, accept exactly
the token shape. -/
def acceptIfLooksLikeToken (value : String) : Option String :=
  let trimmed := stripQuotes (jsTrim value)
  if trimmed = "" then none
  else if trimmed = marker then none
  else if tokenShape trimmed then some trimmed
  else none

/-- extractFromQueryLike, lines 34-54: when the value mentions token or
start underscore param, read those parameters out of it as a URL and then
as a bare query string; a falsy (null or empty) extraction falls through. -/
def extractFromQueryLike (value : String) : Option String :=
  if ¬ (containsSub value.data "token".data ∨ containsSub value.data "start_param".data) then
    none
  else
    let viaUrl :=
      match tryURLQuery value with
      | some q =>
        let ps := parseQS q
        let direct := jsOr (qsGet ps "token") (qsGet ps "start_param")
        if truthyS direct then direct else none
      | none => none
    match viaUrl with
    | some d => some d
    | none =>
      let ps := parseQS value
      let direct := jsOr (qsGet ps "token") (qsGet ps "start_param")
      if truthyS direct then direct else none

/-- parseString, lines 56-92, with explicit fuel for the recursion (the
source recurses on extracted sub-values; every recursive call is on data
carved out of a strictly larger input, and each top-level use supplies
more fuel than the length of its input, so the fuel never runs out on the
executions the component performs).  The order of attempts is that of the
source: direct accept, query-like extraction, JSON, base64 + JSON, and the
last-resort fallback returning the trimmed value itself.  A thrown
JSON.parse inside the base64 try-block skips the query extraction of the
decoded text, exactly as the exception does in the source. -/
def parseStringF : Nat → String → Option String
  | 0, _ => none
  | f + 1, str =>
    if str = "" then none
    else
      let trimmed := jsTrim str
      if trimmed = "" ∨ trimmed = marker then none
      else
        match acceptIfLooksLikeToken trimmed with
        | some t => some t
        | none =>
          match extractFromQueryLike trimmed with
          | some q => parseStringF f q
          | none =>
            let viaJson : Option (Option String) :=
              match jsonParse trimmed with
              | some (.str s2) => some (parseStringF f s2)
              | some j =>
                if jsTruthyJ j then
                  match jget j "token" with
                  | some (.str t) => some (parseStringF f t)
                  | _ => none
                else none
              | none => none
            match viaJson with
            | some r => r
            | none =>
              let viaB64 : Option (Option String) :=
                match atobStr trimmed with
                | none => none
                | some decoded =>
                  match jsonParse decoded with
                  | none => none
                  | some (.str s2) => some (parseStringF f s2)
                  | some j =>
                    let viaTok : Option (Option String) :=
                      if jsTruthyJ j then
                        match jget j "token" with
                        | some (.str t) => some (parseStringF f t)
                        | _ => none
                      else none
                    match viaTok with
                    | some r => some r
                    | none =>
                      match extractFromQueryLike decoded with
                      | some q => some (parseStringF f q)
                      | none => none
              match viaB64 with
              | some r => r
              | none => some trimmed

/-- A candidate value as the resolver sees it: null or undefined, a
string, an object (of which only a string token field is used), or any
other value (rejected by the normalizer). -/
inductive HostVal where
  | undef
  | str (s : String)
  | obj (tokenField : Option HostVal)
  | other

/-- normalizePairingToken, lines 22-103: strings go through parseString,
objects contribute their token field when it is a string, everything else
is null. -/
def normalizePairingToken (raw : HostVal) : Option String :=
  match raw with
  | .undef => none
  | .str s => parseStringF (s.data.length + 1) s
  | .obj tf =>
    match tf with
    | some (.str s) => parseStringF (s.data.length + 1) s
    | _ => none
  | .other => none

/-- The ambient context the resolver reads: the location query string and
the four host-payload fields probed at lines 111-114. -/
structure ResolveCtx where
  search : String
  tgStartParam : HostVal
  tgStartParamAlt : HostVal
  tgStartapp : HostVal
  tgInitData : HostVal

/-- Turn a string-or-null query lookup into a candidate. -/
def optToHV : Option String → HostVal
  | none => .undef
  | some s => .str s

/-- First candidate whose normalization is truthy, lines 118-124. -/
def resolveCands : List HostVal → Option String
  | [] => none
  | c :: cs =>
    let token := normalizePairingToken c
    if truthyS token then token else resolveCands cs

/-- resolvePairingToken, lines 105-125: the ordered candidate list is the
token query parameter, the start underscore param query parameter, three
spellings of the host start parameter, the raw host init-data string, and
the whole query string reserialised. -/
def resolvePairingToken (ctx : ResolveCtx) : Option String :=
  let ps := parseQS ctx.search
  resolveCands
    [optToHV (qsGet ps "token"),
     optToHV (qsGet ps "start_param"),
     ctx.tgStartParam,
     ctx.tgStartParamAlt,
     ctx.tgStartapp,
     ctx.tgInitData,
     .str (qsToString ps)]

/-! The pairing flow: user-facing messages, the two backend calls, the
scan strategies and the component state, lines 160-343 and the render
conditions of lines 369-460. -/

/-- Error shown when scanning is started without a token, line 162. -/
def noTokenScanMsg : String :=
  "No pairing token available. Please use the /pair command in the bot."

/-- Error of the submission path when no token can be resolved, line 288. -/
def noTokenAvailMsg : String := "No pairing token available."

/-- Error for an invalid or expired pairing token, line 308. -/
def invalidTokenMsg : String :=
  "Pairing token is invalid or expired. Please use the /pair command in the bot to get a new pairing link."

/-- Generic transport-failure message of the catch block, line 331. -/
def genericPairFailMsg : String := "Failed to pair device. Please try again."

/-- Fallback message for a logically failed pair call, line 325. -/
def pairingFailedMsg : String := "Pairing failed"

/-- Camera acquisition failure message, line 216. -/
def cameraFailMsg : String := "Failed to access camera. Please grant camera permissions."

/-- Mount-time message when neither a token nor a host user is present, line 142. -/
def noTokenFoundMsg : String :=
  "No pairing token found. Please use the /pair command in the bot."

/-- Malformed scan payload message, line 269. -/
def invalidQRMsg : String :=
  "Invalid QR code format. Please scan the QR code from your Garmin watch."

/-- Success message carrying the issued credential, lines 321-323. -/
def successMsg (apiKey : String) : String :=
  "Device paired successfully! API Key: " ++ apiKey

/-- Characters kept verbatim by encodeURIComponent. -/
def isUriUnreserved (c : Char) : Bool :=
  c.isAlpha || c.isDigit || c = '-' || c = '_' || c = '.' || c = '!' ||
    c = '~' || c = '*' || c = '\x27' || c = '(' || c = ')'

/-- encodeURIComponent on ASCII data (the tokens the component builds URLs
from are ASCII). -/
def encodeURIComponent (s : String) : String :=
  ⟨s.data.flatMap (fun c =>
    if isUriUnreserved c then [c]
    else ['%', hexDigit (c.toNat / 16 % 16), hexDigit (c.toNat % 16)])⟩

/-- What the token-validation GET produces before axios interprets it:
either no response at all (network failure) or a status with the
truthiness of the token field of the body and the error field of the
body.  validateStatus of the call accepts any status below 500, so only a
network failure or a five-hundred-class status rejects. -/
structure CheckRaw where
  networkFail : Bool
  status : Nat
  hasToken : Bool
  errField : Option String

/-- What the pair POST produces: axios default validateStatus accepts only
the two-hundred class, anything else rejects with the response attached
when one exists. -/
structure PairRaw where
  networkFail : Bool
  status : Nat
  ok : Bool
  apiKey : String
  errField : Option String

/-- The two scanning strategies, line 14. -/
inductive Method where
  | telegram
  | html5
deriving DecidableEq

/-- The component state: the six state hooks plus the scanner ref. -/
structure UIState where
  error : Option String
  success : Option String
  pairingToken : Option String
  loading : Bool
  scanning : Bool
  scanMethod : Option Method
  scannerRef : Bool
deriving DecidableEq

/-- The all-empty initial hook state. -/
def emptyState : UIState :=
  ⟨none, none, none, false, false, none, false⟩

/-- Observable side effects of a handler run. -/
inductive Act where
  | popupOpen
  | popupClose
  | cameraAcquire
  | cameraAcquireFail
  | cameraStop
  | httpCheck
  | httpPair
deriving DecidableEq

/-- Which backend calls a pairDevice run performed, with their payloads,
and whether it re-invoked the resolver. -/
structure PairTrace where
  resolverInvoked : Bool
  checkCalled : Bool
  checkUrlToken : Option String
  pairCalled : Bool
  pairBody : Option (String × Json)

/-- The message the catch block surfaces: the error field of an attached
response when truthy, else the generic retry prompt (line 329-332). -/
def catchMsg (networkFail : Bool) (errField : Option String) : String :=
  if networkFail then genericPairFailMsg
  else
    match errField with
    | some e => if e ≠ "" then e else genericPairFailMsg
    | none => genericPairFailMsg

/-- pairDevice, lines 277-336.  Re-resolves the token when the held one is
missing or the stringified-object marker; fails without any backend call
when it is still missing or the marker; otherwise validates the token
(any status below 500 is a business response) and only on confirmation
issues the pair call.  The success branch overwrites success after error
was cleared at entry; error branches overwrite error and leave success
untouched. -/
def pairDevice (s : UIState) (ctx : ResolveCtx) (deviceId : Json)
    (ck : CheckRaw) (pr : PairRaw) : UIState × PairTrace :=
  let held := s.pairingToken
  let reResolve : Bool := ¬ truthyS held ∨ held = some marker
  let tok1 := if reResolve then resolvePairingToken ctx else held
  let s1 := if reResolve ∧ truthyS tok1 then { s with pairingToken := tok1 } else s
  if ¬ truthyS tok1 ∨ tok1 = some marker then
    ({ s1 with error := some noTokenAvailMsg },
     ⟨reResolve, false, none, false, none⟩)
  else
    let tok := tok1.getD ""
    let tokenForUrl := encodeURIComponent tok
    let s2 := { s1 with loading := true, error := none }
    if ck.networkFail ∨ ¬ ck.status < 500 then
      ({ s2 with error := some (catchMsg ck.networkFail ck.errField), loading := false },
       ⟨reResolve, true, some tokenForUrl, false, none⟩)
    else if 400 ≤ ck.status ∨ ¬ ck.hasToken then
      ({ s2 with error := some invalidTokenMsg, loading := false },
       ⟨reResolve, true, some tokenForUrl, false, none⟩)
    else if pr.networkFail ∨ ¬ (200 ≤ pr.status ∧ pr.status < 300) then
      ({ s2 with error := some (catchMsg pr.networkFail pr.errField), loading := false },
       ⟨reResolve, true, some tokenForUrl, true, some (tok, deviceId)⟩)
    else if pr.ok then
      ({ s2 with success := some (successMsg pr.apiKey), loading := false },
       ⟨reResolve, true, some tokenForUrl, true, some (tok, deviceId)⟩)
    else
      ({ s2 with error := some (catchMsg false pr.errField), loading := false },
       ⟨reResolve, true, some tokenForUrl, true, some (tok, deviceId)⟩)

/-- The device identifier chosen by handleScannedCode, lines 257-271.
When the payload parses as JSON, the deviceId property is used when
truthy and the raw payload text is the untrimmed fallback; property
access on the JSON value null throws, so that case and the not-JSON case
take the catch branch, which trims.  A falsy result is the invalid-QR
error, modelled as none. -/
def decodeScanned (raw : String) : Option Json :=
  let d : Json :=
    match jsonParse raw with
    | some Json.null => .str (jsTrim raw)
    | some j =>
      match jget j "deviceId" with
      | some v => if jsTruthyJ v then v else .str raw
      | none => .str raw
    | none => .str (jsTrim raw)
  if jsTruthyJ d then some d else none

/-- stopScanning, lines 222-248: the telegram branch only closes the host
popup; otherwise a held scanner ref is stopped; in every branch the
scanning flag and method are cleared. -/
def stopScanningF (s : UIState) : UIState × List Act :=
  match s.scanMethod with
  | some .telegram =>
    ({ s with scanning := false, scanMethod := none }, [.popupClose])
  | _ =>
    if s.scannerRef then
      ({ s with scannerRef := false, scanning := false, scanMethod := none }, [.cameraStop])
    else
      ({ s with scanning := false, scanMethod := none }, [])

/-- startScanning, lines 160-220: guard on a truthy token, clear the
error, then either open the host popup or construct a scanner (the ref is
assigned before start, so a failed start leaves it set) and start the
camera; a camera failure reports and resets the scanning flags. -/
def startScanningF (tgAvail cameraOk : Bool) (s : UIState) : UIState × List Act :=
  if ¬ truthyS s.pairingToken then
    ({ s with error := some noTokenScanMsg }, [])
  else
    let s0 := { s with error := none }
    if tgAvail then
      ({ s0 with scanning := true, scanMethod := some .telegram }, [.popupOpen])
    else if cameraOk then
      ({ s0 with scanning := true, scanMethod := some .html5, scannerRef := true },
       [.cameraAcquire])
    else
      ({ s0 with scanning := false, scanMethod := none, scannerRef := true,
                 error := some cameraFailMsg },
       [.cameraAcquireFail])

/-- The backend and ambient context a submission consults. -/
structure NetOracle where
  ctx : ResolveCtx
  ck : CheckRaw
  pr : PairRaw

/-- Actions recorded for the backend calls of a submission. -/
def actsOfTrace (t : PairTrace) : List Act :=
  (if t.checkCalled then [.httpCheck] else []) ++
    (if t.pairCalled then [.httpPair] else [])

/-- handleScannedCode, lines 250-275: stop the scan session, decode the
payload, report a malformed payload, otherwise submit. -/
def handleScannedCodeF (raw : String) (net : NetOracle) (s : UIState) :
    UIState × List Act :=
  let r1 := stopScanningF s
  match decodeScanned raw with
  | none => ({ r1.1 with error := some invalidQRMsg }, r1.2)
  | some dev =>
    let r2 := pairDevice r1.1 net.ctx dev net.ck net.pr
    (r2.1, r1.2 ++ actsOfTrace r2.2)

/-- A scan result arriving while a session is active.  With the telegram
strategy the popup is closed first and a null payload only resets the
session (lines 176-188); with the in-page strategy the success callback
hands the payload straight to handleScannedCode (line 205-208). -/
def scanResultF (raw : String) (net : NetOracle) (s : UIState) :
    UIState × List Act :=
  match s.scanMethod with
  | some .telegram =>
    if raw = "" then
      ({ s with scanning := false, scanMethod := none }, [.popupClose])
    else
      let r := handleScannedCodeF raw net { s with scanning := false, scanMethod := none }
      (r.1, .popupClose :: r.2)
  | _ => handleScannedCodeF raw net s

/-- handleManualEntry, lines 338-343: a truthy prompt result with a
nonempty trim is submitted trimmed; otherwise nothing happens. -/
def manualEntryF (input : Option String) (net : NetOracle) (s : UIState) :
    UIState × List Act :=
  match input with
  | none => (s, [])
  | some d =>
    if d ≠ "" ∧ jsTrim d ≠ "" then
      let r := pairDevice s net.ctx (.str (jsTrim d)) net.ck net.pr
      (r.1, actsOfTrace r.2)
    else (s, [])

/-- User-visible events of the page. -/
inductive Ev where
  | startScan (tgAvail cameraOk : Bool)
  | cancelScan
  | scanResult (raw : String) (net : NetOracle)
  | manualEntry (input : Option String) (net : NetOracle)
  | ackDone

/-- Whether the interface lets an event fire, from the render conditions
of lines 369-460: the scan and manual-entry buttons exist only when no
success is shown and no session is active, and are disabled without a
token or while loading; the cancel buttons exist only during a session;
scan results only arrive during a session; the acknowledge button exists
only on success. -/
def enabledEv (s : UIState) (e : Ev) : Bool :=
  match e with
  | .startScan _ _ =>
    s.success = none ∧ ¬ s.scanning ∧ truthyS s.pairingToken ∧ ¬ s.loading
  | .manualEntry _ _ =>
    s.success = none ∧ ¬ s.scanning ∧ truthyS s.pairingToken ∧ ¬ s.loading
  | .cancelScan => s.success = none ∧ s.scanning
  | .scanResult _ _ => s.scanning
  | .ackDone => s.success.isSome

/-- One step of the page: an event that the interface does not offer
leaves the state unchanged and performs nothing. -/
def stepUI (s : UIState) (e : Ev) : UIState × List Act :=
  if enabledEv s e then
    match e with
    | .startScan tg cam => startScanningF tg cam s
    | .cancelScan => stopScanningF s
    | .scanResult raw net => scanResultF raw net s
    | .manualEntry input net => manualEntryF input net s
    | .ackDone => ({ s with success := none }, [])
  else (s, [])

/-- The mount effect, lines 128-145: resolve a token; failing that, a
host user suppresses the error, otherwise the no-token message is shown. -/
def initState (ctx : ResolveCtx) (userHasId : Bool) : UIState :=
  let t := resolvePairingToken ctx
  if truthyS t then { emptyState with pairingToken := t }
  else if userHasId then emptyState
  else { emptyState with error := some noTokenFoundMsg }

/-- States the page can reach from mount under interface-offered events. -/
inductive Reachable : UIState → Prop where
  | init (ctx : ResolveCtx) (userHasId : Bool) : Reachable (initState ctx userHasId)
  | step {s : UIState} (e : Ev) : Reachable s → Reachable (stepUI s e).1

/-- The string payload of a chosen device identifier, for stating
concrete facts about decodeScanned without deciding Json equality. -/
def devStr : Option Json → Option String
  | some (.str s) => some s
  | _ => none

/-- Whether a parse result is the JSON value null. -/
def isNullJ : Option Json → Bool
  | some .null => true
  | _ => false

/-- An ambient context with nothing in it. -/
def ctxEmpty : ResolveCtx := ⟨"", .undef, .undef, .undef, .undef⟩

/-- An ambient context with only a host start parameter. -/
def ctxStart (s : String) : ResolveCtx := ⟨"", .str s, .undef, .undef, .undef⟩

/-- An ambient context with only a location query string. -/
def ctxSearch (q : String) : ResolveCtx := ⟨q, .undef, .undef, .undef, .undef⟩

/-- The JSON blob carrying a token, as produced by the pairing-link
generator: an object with a single token field. -/
def jsonTok (t : String) : String := "\x7b\"token\":\"" ++ t ++ "\"\x7d"

/-- A state with an active in-page scan session. -/
def sHtml5Active : UIState :=
  { emptyState with
      scanning := true
      scanMethod := some Method.html5
      scannerRef := true
      pairingToken := some "tok_123456" }

/-- A state with the telegram strategy recorded and a stale scanner ref. -/
def sTgStale : UIState :=
  { emptyState with
      scanning := true
      scanMethod := some Method.telegram
      scannerRef := true }

/-- A resolved check response of the given status and body. -/
def ckOf (status : Nat) (hasToken : Bool) : CheckRaw := ⟨false, status, hasToken, none⟩

/-- A resolved successful pair response issuing the given key. -/
def prOk (key : String) : PairRaw := ⟨false, 200, true, key, none⟩

/-- The exclusivity invariant: a populated success implies a cleared
error, and no success is shown while a scan session is active. -/
def InvES (s : UIState) : Prop :=
  (s.success.isSome → s.error = none) ∧ (s.scanning = true → s.success = none)

/-- Membership in the base64 alphabet or the padding character. -/
def isB64Char (c : Char) : Bool := (b64idx c).isSome || c = '='

end Pairing

namespace Pairing


/-! Theorems for the claims, with their counterexamples and witnesses. -/

/-- Claim C6: while a scan session is active, a further scan-start request
is refused — the interface does not offer the control, so the state is
unchanged and nothing is performed; and camera acquisition only ever
happens from a non-scanning state. -/
theorem claim_C6_scan_start_refused (s : UIState) (tg cam : Bool)
    (h : s.scanning = true) :
    stepUI s (.startScan tg cam) = (s, []) ∧
      Act.cameraAcquire ∉ (stepUI s (.startScan tg cam)).2 := by
  have henb : enabledEv s (.startScan tg cam) = false := by
    simp [enabledEv, h]
  constructor
  · simp [stepUI, henb]
  · simp [stepUI, henb]

/-- Witness for C6 at a concrete active-session state. -/
theorem claim_C6_scan_start_refused_witness :
    stepUI sHtml5Active (.startScan false true) = (sHtml5Active, []) :=
  (claim_C6_scan_start_refused sHtml5Active false true rfl).1

/-- Counterexample for C7: with the telegram strategy recorded and a
scanner reference still held (inconsistent bookkeeping), stopScanning
closes the popup but never attempts to stop the held scanner, so it does
not attempt both releases regardless of the recorded strategy. -/
theorem claim_C7_cex :
    (stopScanningF sTgStale).2 = [Act.popupClose] ∧
      Act.cameraStop ∉ (stopScanningF sTgStale).2 ∧
      (stopScanningF sTgStale).1.scannerRef = true := by
  decide

/-- Claim C7 (amended): stopScanning is idempotent — invoked with no
session bookkeeping it is a no-op — and on every invocation it clears the
session flags; but it releases only per the recorded strategy: with the
telegram strategy it performs exactly the popup close and leaves a held
scanner reference untouched, with any other recorded strategy it performs
exactly the scanner stop when a reference is held and nothing otherwise
(never the popup close). -/
theorem claim_C7_amended :
    (∀ s : UIState, s.scanning = false → s.scanMethod = none → s.scannerRef = false →
      stopScanningF s = (s, [])) ∧
    (∀ s : UIState, (stopScanningF s).1.scanning = false ∧
      (stopScanningF s).1.scanMethod = none) ∧
    (∀ s : UIState, s.scanMethod = some Method.telegram →
      (stopScanningF s).2 = [Act.popupClose] ∧
        (stopScanningF s).1.scannerRef = s.scannerRef) ∧
    (∀ s : UIState, s.scanMethod ≠ some Method.telegram →
      (stopScanningF s).2 = (if s.scannerRef then [Act.cameraStop] else [])) := by
  refine ⟨?_, ?_, ?_, ?_⟩
  · intro s h1 h2 h3
    cases s
    simp_all [stopScanningF]
  · intro s
    unfold stopScanningF
    rcases s with ⟨e, su, t, l, sc, m, r⟩
    rcases m with _ | m
    · by_cases hr : r <;> simp [hr]
    · cases m
      · simp
      · by_cases hr : r <;> simp [hr]
  · intro s h
    simp [stopScanningF, h]
  · intro s h
    unfold stopScanningF
    rcases s with ⟨e, su, t, l, sc, m, r⟩
    rcases m with _ | m
    · by_cases hr : r <;> simp [hr]
    · cases m
      · simp_all
      · by_cases hr : r <;> simp [hr]

/-- Witness for C7 at concrete states: the idle no-op and the in-page
strategy release. -/
theorem claim_C7_amended_witness :
    stopScanningF emptyState = (emptyState, []) ∧
      (stopScanningF sHtml5Active).2 = [Act.cameraStop] :=
  ⟨claim_C7_amended.1 emptyState rfl rfl rfl, by
    have h := claim_C7_amended.2.2.2 sHtml5Active (by decide)
    simpa [sHtml5Active] using h⟩

/-- Counterexample for C5: a scanned JSON payload with a padded deviceId
field is submitted untrimmed — the JSON branch does not trim. -/
theorem claim_C5_cex :
    devStr (decodeScanned "\x7b\"deviceId\":\" X1 \"\x7d") = some " X1 " ∧
      jsTrim " X1 " = "X1" ∧ (" X1 " : String) ≠ "X1" := by
  decide

/-- Claim C5 (amended): decode parses the payload as JSON and uses a
truthy deviceId field of a non-null parse untrimmed; only when the
payload is not JSON is the raw text used, trimmed; an empty trimmed
fallback signals the invalid-QR-format error (none) instead of
submitting. -/
theorem claim_C5_amended :
    (∀ (raw : String) (j v : Json), jsonParse raw = some j → j ≠ Json.null →
      jget j "deviceId" = some v → jsTruthyJ v = true →
      decodeScanned raw = some v) ∧
    (∀ raw : String, jsonParse raw = none →
      decodeScanned raw =
        (if jsTrim raw = "" then none else some (Json.str (jsTrim raw)))) := by
  constructor
  · intro raw j v hp hnull hget htr
    unfold decodeScanned
    rw [hp]
    cases j with
    | null => exact absurd rfl hnull
    | bool b => simp [hget, htr]
    | num m e => simp [hget, htr]
    | str s => simp [hget, htr]
    | arr xs => simp [hget, htr]
    | obj kvs => simp [hget, htr]
  · intro raw hp
    unfold decodeScanned
    rw [hp]
    by_cases h : jsTrim raw = "" <;> simp [jsTruthyJ, h]

/-- Witness for C5 at concrete payloads: the JSON branch and the plain
branch. -/
theorem claim_C5_amended_witness :
    decodeScanned "\x7b\"deviceId\":\"GAR-001\"\x7d" = some (Json.str "GAR-001") ∧
      decodeScanned "  GAR-001  " = some (Json.str "GAR-001") := by
  constructor
  · exact claim_C5_amended.1 _ (Json.obj [("deviceId", Json.str "GAR-001")])
      (Json.str "GAR-001") rfl (fun h => Json.noConfusion h) rfl rfl
  · rw [claim_C5_amended.2 "  GAR-001  " rfl]
    rfl

/-- Counterexample for C10: the payload consisting of the JSON literal
null surrounded by spaces parses as JSON with no deviceId field, yet
decode does not fall back to the untrimmed raw text: the null property
access throws and the catch branch trims. -/
theorem claim_C10_cex :
    isNullJ (jsonParse " null ") = true ∧
      devStr (decodeScanned " null ") = some "null" ∧
      ("null" : String) ≠ " null " := by
  decide

/-- Claim C10 (amended): for every scanned payload that parses as JSON to
a non-null value whose deviceId field is absent or falsy (including
non-object values such as numbers), decode falls back to the entire raw
text, untrimmed, and proceeds to submission — the raw text of a
successful parse is necessarily nonempty; the JSON value null instead
takes the catch path, which trims. -/
theorem claim_C10_amended (raw : String) (j : Json)
    (hp : jsonParse raw = some j) (hnull : j ≠ Json.null)
    (hdev : jget j "deviceId" = none ∨
      ∃ v, jget j "deviceId" = some v ∧ jsTruthyJ v = false) :
    decodeScanned raw = some (Json.str raw) ∧ raw ≠ "" := by
  have hraw : raw ≠ "" := by
    intro he
    rw [he] at hp
    exact Option.noConfusion hp
  refine ⟨?_, hraw⟩
  unfold decodeScanned
  rw [hp]
  cases j with
  | null => exact absurd rfl hnull
  | bool b =>
    rcases hdev with h | ⟨v, hv, htr⟩
    · simp only [h]
      simp [jsTruthyJ, hraw]
    · simp only [hv, htr]
      simp [jsTruthyJ, hraw]
  | num m e =>
    rcases hdev with h | ⟨v, hv, htr⟩
    · simp only [h]
      simp [jsTruthyJ, hraw]
    · simp only [hv, htr]
      simp [jsTruthyJ, hraw]
  | str s =>
    rcases hdev with h | ⟨v, hv, htr⟩
    · simp only [h]
      simp [jsTruthyJ, hraw]
    · simp only [hv, htr]
      simp [jsTruthyJ, hraw]
  | arr xs =>
    rcases hdev with h | ⟨v, hv, htr⟩
    · simp only [h]
      simp [jsTruthyJ, hraw]
    · simp only [hv, htr]
      simp [jsTruthyJ, hraw]
  | obj kvs =>
    rcases hdev with h | ⟨v, hv, htr⟩
    · simp only [h]
      simp [jsTruthyJ, hraw]
    · simp only [hv, htr]
      simp [jsTruthyJ, hraw]

/-- Witness for C10: a bare number payload is submitted as its raw text. -/
theorem claim_C10_amended_witness :
    decodeScanned "42" = some (Json.str "42") ∧ ("42" : String) ≠ "" :=
  claim_C10_amended "42" (Json.num 42 0) rfl
    (fun h => Json.noConfusion h) (Or.inl rfl)

/-- Counterexample for C3: a held token that fails the shape check (but
is neither missing nor the stringified-object marker) does not trigger
re-resolution, and the backend check call is issued anyway. -/
theorem claim_C3_cex :
    tokenShape "ab" = false ∧
      (pairDevice { emptyState with pairingToken := some "ab" } ctxEmpty
          (.str "dev123") (ckOf 200 true) (prOk "k")).2.resolverInvoked = false ∧
      (pairDevice { emptyState with pairingToken := some "ab" } ctxEmpty
          (.str "dev123") (ckOf 200 true) (prOk "k")).2.checkCalled = true := by
  decide

/-- Claim C3 (amended): on every submission the resolver is re-invoked
exactly when the held token is missing, empty, or the stringified-object
marker — not on a general shape failure — and when the re-resolved token
is still missing, empty or the marker, the flow fails with the
no-pairing-token error without issuing any backend call. -/
theorem claim_C3_amended (s : UIState) (ctx : ResolveCtx) (dev : Json)
    (ck : CheckRaw) (pr : PairRaw)
    (h1 : truthyS s.pairingToken = false ∨ s.pairingToken = some marker)
    (h2 : truthyS (resolvePairingToken ctx) = false ∨
      resolvePairingToken ctx = some marker) :
    (pairDevice s ctx dev ck pr).2.resolverInvoked = true ∧
      (pairDevice s ctx dev ck pr).1.error = some noTokenAvailMsg ∧
      (pairDevice s ctx dev ck pr).2.checkCalled = false ∧
      (pairDevice s ctx dev ck pr).2.pairCalled = false := by
  have hm : truthyS (some marker) = true := by decide
  rcases h1 with h1 | h1 <;> rcases h2 with h2 | h2 <;>
    simp [pairDevice, h1, h2, hm]

/-- Witness for C3 at a concrete state with no token anywhere. -/
theorem claim_C3_amended_witness :
    (pairDevice emptyState ctxEmpty (.str "d") (ckOf 200 true) (prOk "k")).2.resolverInvoked = true ∧
      (pairDevice emptyState ctxEmpty (.str "d") (ckOf 200 true) (prOk "k")).1.error = some noTokenAvailMsg ∧
      (pairDevice emptyState ctxEmpty (.str "d") (ckOf 200 true) (prOk "k")).2.checkCalled = false ∧
      (pairDevice emptyState ctxEmpty (.str "d") (ckOf 200 true) (prOk "k")).2.pairCalled = false :=
  claim_C3_amended emptyState ctxEmpty (.str "d") (ckOf 200 true) (prOk "k")
    (Or.inl rfl) (Or.inl (by decide))

/-- Claim C4: when the token-validation call resolves (no network failure,
status below 500 per validateStatus) with a client-error status or a body
lacking the token confirmation, the submission reaches the failed state
with the invalid-or-expired message, the pair endpoint is never called,
and the check call was indeed issued as a business response (not the
transport catch). -/
theorem claim_C4_invalid_token (s : UIState) (ctx : ResolveCtx) (dev : Json)
    (ck : CheckRaw) (pr : PairRaw) (t : String)
    (ht : s.pairingToken = some t) (hne : t ≠ "") (hnm : t ≠ marker)
    (hnf : ck.networkFail = false) (hlt : ck.status < 500)
    (hbad : 400 ≤ ck.status ∨ ck.hasToken = false) :
    (pairDevice s ctx dev ck pr).1.error = some invalidTokenMsg ∧
      (pairDevice s ctx dev ck pr).2.checkCalled = true ∧
      (pairDevice s ctx dev ck pr).2.pairCalled = false ∧
      (pairDevice s ctx dev ck pr).1.success = s.success := by
  have htr : truthyS s.pairingToken = true := by simp [ht, truthyS, hne]
  rcases hbad with hb | hb <;>
    simp [pairDevice, ht, htr, hnm, hnf, hlt, hb, truthyS, hne]

/-- Witness for C4: a held well-formed token and a 404 check response. -/
theorem claim_C4_invalid_token_witness :
    (pairDevice { emptyState with pairingToken := some "tok_9f8e" } ctxEmpty
        (.str "abc123") (ckOf 404 false) (prOk "k")).1.error = some invalidTokenMsg ∧
      (pairDevice { emptyState with pairingToken := some "tok_9f8e" } ctxEmpty
        (.str "abc123") (ckOf 404 false) (prOk "k")).2.checkCalled = true ∧
      (pairDevice { emptyState with pairingToken := some "tok_9f8e" } ctxEmpty
        (.str "abc123") (ckOf 404 false) (prOk "k")).2.pairCalled = false ∧
      (pairDevice { emptyState with pairingToken := some "tok_9f8e" } ctxEmpty
        (.str "abc123") (ckOf 404 false) (prOk "k")).1.success =
        ({ emptyState with pairingToken := some "tok_9f8e" } : UIState).success :=
  claim_C4_invalid_token _ ctxEmpty (.str "abc123") (ckOf 404 false) (prOk "k")
    "tok_9f8e" rfl (by decide) (by decide) rfl (by decide) (Or.inl (by decide))

/-! Helper lemmas about the string primitives. -/

/-- The head of a dropWhile result fails the predicate. -/
theorem head?_dropWhile_false (p : Char → Bool) :
    ∀ (l : List Char) (c : Char), (l.dropWhile p).head? = some c → p c = false := by
  intro l
  induction l with
  | nil => intro c hc; cases hc
  | cons a t ih =>
    intro c hc
    by_cases hp : p a
    · rw [List.dropWhile_cons_of_pos hp] at hc
      exact ih c hc
    · rw [List.dropWhile_cons_of_neg hp] at hc
      cases hc
      simpa using hp

/-- A list whose head fails the predicate is untouched by dropWhile. -/
theorem dropWhile_eq_self_of_head? (p : Char → Bool) (l : List Char)
    (h : ∀ c, l.head? = some c → p c = false) : l.dropWhile p = l := by
  cases l with
  | nil => rfl
  | cons a t =>
    have ha := h a rfl
    simp [List.dropWhile_cons, ha]

/-- A nonempty prefix shares the head. -/
theorem prefix_head?_eq {l1 l2 : List Char} (h : l1 <+: l2) (hne : l1 ≠ []) :
    l2.head? = l1.head? := by
  obtain ⟨t, rfl⟩ := h
  cases l1 with
  | nil => exact absurd rfl hne
  | cons a t1 => rfl

/-- jsTrimL is dropWhile on the front composed with rdropWhile behind. -/
theorem jsTrimL_def (l : List Char) :
    jsTrimL l = List.rdropWhile isJsWs (l.dropWhile isJsWs) := rfl

/-- Trimming is idempotent. -/
theorem jsTrimL_idem (l : List Char) : jsTrimL (jsTrimL l) = jsTrimL l := by
  rw [jsTrimL_def, jsTrimL_def]
  have hpre := List.rdropWhile_prefix isJsWs (l.dropWhile isJsWs)
  have hdw : (List.rdropWhile isJsWs (l.dropWhile isJsWs)).dropWhile isJsWs =
      List.rdropWhile isJsWs (l.dropWhile isJsWs) := by
    apply dropWhile_eq_self_of_head?
    intro c hc
    have hne : List.rdropWhile isJsWs (l.dropWhile isJsWs) ≠ [] := by
      intro h
      rw [h] at hc
      cases hc
    have h2 : (l.dropWhile isJsWs).head? = some c := by
      rw [prefix_head?_eq hpre hne]
      exact hc
    exact head?_dropWhile_false isJsWs l c h2
  rw [hdw, List.rdropWhile_idempotent]

/-- String-level trim idempotence. -/
theorem jsTrim_idem (s : String) : jsTrim (jsTrim s) = jsTrim s := by
  unfold jsTrim
  exact congrArg String.mk (jsTrimL_idem s.data)

/-- A token-shaped string is nonempty. -/
theorem tokenShape_ne_empty {t : String} (h : tokenShape t = true) : t ≠ "" := by
  intro he
  rw [he] at h
  revert h
  decide

/-- A token-shaped string is not the stringified-object marker. -/
theorem tokenShape_ne_marker {t : String} (h : tokenShape t = true) : t ≠ marker := by
  intro he
  rw [he] at h
  revert h
  decide

/-- When the trimmed, quote-stripped value is token-shaped, the accept
helper returns exactly it. -/
theorem accept_of_shape (s : String)
    (h : tokenShape (stripQuotes (jsTrim s)) = true) :
    acceptIfLooksLikeToken (jsTrim s) = some (stripQuotes (jsTrim s)) := by
  unfold acceptIfLooksLikeToken
  rw [jsTrim_idem]
  rw [if_neg (tokenShape_ne_empty h), if_neg (tokenShape_ne_marker h), if_pos h]

/-- If the accept helper returns a value, that value is token-shaped. -/
theorem accept_shape {v t : String}
    (h : acceptIfLooksLikeToken v = some t) : tokenShape t = true := by
  simp only [acceptIfLooksLikeToken] at h
  split at h
  · cases h
  · split at h
    · cases h
    · split at h
      · cases h
        assumption
      · cases h

/-- A candidate whose trimmed, quote-stripped form is token-shaped is
accepted by parseString at any fuel level, without any decoding route. -/
theorem parseStringF_direct (s : String)
    (h : tokenShape (stripQuotes (jsTrim s)) = true) :
    ∀ f : Nat, parseStringF (f + 1) s = some (stripQuotes (jsTrim s)) := by
  have hs : s ≠ "" := by
    intro he
    rw [he] at h
    revert h
    decide
  have ht1 : jsTrim s ≠ "" := by
    intro he
    rw [he] at h
    revert h
    decide
  have ht2 : jsTrim s ≠ marker := by
    intro he
    rw [he] at h
    revert h
    decide
  have hacc := accept_of_shape s h
  intro f
  unfold parseStringF
  rw [if_neg hs, if_neg (by exact not_or.mpr ⟨ht1, ht2⟩), hacc]

/-- Claim C8: a candidate whose trimmed, quote-stripped form is
token-shaped is accepted immediately by the normalize procedure, which
returns that form: the result holds already at recursion fuel one — no
query, JSON or base64 decoding route is taken — and the normalizer on the
string candidate returns the same value. -/
theorem claim_C8_direct_accept (s : String)
    (h : tokenShape (stripQuotes (jsTrim s)) = true) :
    (∀ f : Nat, parseStringF (f + 1) s = some (stripQuotes (jsTrim s))) ∧
      normalizePairingToken (.str s) = some (stripQuotes (jsTrim s)) :=
  ⟨parseStringF_direct s h, parseStringF_direct s h s.data.length⟩

/-- Witness for C8: a quoted token is accepted with its quotes stripped. -/
theorem claim_C8_direct_accept_witness :
    tokenShape (stripQuotes (jsTrim "\"abc123\"")) = true ∧
      normalizePairingToken (.str "\"abc123\"") = some "abc123" := by
  refine ⟨by decide, ?_⟩
  have h := (claim_C8_direct_accept "\"abc123\"" (by decide)).2
  simpa using h

/-- No fuel level and no input can make parseString return the
stringified-object marker: the entry guard rejects it, the accept helper
only returns token-shaped values, recursive results carry the property
inductively, and the fallback returns a trimmed value the guard has
already checked. -/
theorem parseStringF_ne_marker : ∀ (f : Nat) (s : String), parseStringF f s ≠ some marker := by
  intro f
  induction f with
  | zero =>
    intro s h
    cases h
  | succ f ih =>
    intro s h
    simp only [parseStringF] at h
    split at h
    · exact Option.noConfusion h
    rename_i hs0
    by_cases hg : jsTrim s = "" ∨ jsTrim s = marker
    · rw [if_pos hg] at h
      exact Option.noConfusion h
    rw [if_neg hg] at h
    split at h
    · rename_i t hacc
      cases h
      exact absurd (accept_shape hacc) (by decide)
    rename_i hacc
    split at h
    · exact ih _ h
    rename_i hq
    split at h
    · rename_i r heq
      subst h
      repeat' split at heq
      all_goals first
        | exact Option.noConfusion heq
        | (injection heq with h2; exact ih _ h2)
    · rename_i hjn
      split at h
      · rename_i r heq
        subst h
        repeat' split at heq
        all_goals first
          | exact Option.noConfusion heq
          | (injection heq with h2; exact ih _ h2)
          | (rename_i heq2
             injection heq with h2
             subst h2
             repeat' split at heq2
             all_goals first
               | exact Option.noConfusion heq2
               | (injection heq2 with h3; exact ih _ h3))
      · injection h with h2
        exact hg (Or.inr h2)

/-- The normalizer never yields the marker from any candidate. -/
theorem normalize_ne_marker (c : HostVal) : normalizePairingToken c ≠ some marker := by
  cases c with
  | undef => simp [normalizePairingToken]
  | str s => exact parseStringF_ne_marker _ _
  | obj tf =>
    cases tf with
    | none => simp [normalizePairingToken]
    | some v =>
      cases v with
      | str s => exact parseStringF_ne_marker _ _
      | undef => simp [normalizePairingToken]
      | obj tf2 => simp [normalizePairingToken]
      | other => simp [normalizePairingToken]
  | other => simp [normalizePairingToken]

/-- No candidate list resolves to the marker. -/
theorem resolveCands_ne_marker : ∀ cs : List HostVal, resolveCands cs ≠ some marker := by
  intro cs
  induction cs with
  | nil => simp [resolveCands]
  | cons c cs ih =>
    simp only [resolveCands]
    split
    · exact normalize_ne_marker c
    · exact ih

/-- A candidate holding the marker string is skipped: resolution over any
candidate list is unchanged by removing it. -/
theorem resolveCands_skip_marker (pre post : List HostVal) :
    resolveCands (pre ++ HostVal.str marker :: post) = resolveCands (pre ++ post) := by
  induction pre with
  | nil =>
    simp only [List.nil_append, resolveCands]
    have hm : normalizePairingToken (HostVal.str marker) = none := by decide
    simp [hm, truthyS]
  | cons c pre ih =>
    simp only [List.cons_append, resolveCands, List.append_eq]
    rw [ih]

/-- Counterexample for C2: with the query string carrying token equals ab,
resolve returns ab, which does not match the PairingToken shape — the
last-resort fallback of parseString returns the trimmed candidate even
when it fails the shape test. -/
theorem claim_C2_cex :
    resolvePairingToken (ctxSearch "?token=ab") = some "ab" ∧
      tokenShape "ab" = false := by
  decide

/-- Claim C2 (amended): resolve never returns the literal stringified-
object marker, from any context and at any recursion fuel, and a
candidate equal to the marker is skipped in favour of the next candidate;
however the shape guarantee of the claim does not hold — the last-resort
fallback can return a non-shaped trimmed value. -/
theorem claim_C2_marker_invariant :
    (∀ (f : Nat) (s : String), parseStringF f s ≠ some marker) ∧
      (∀ ctx : ResolveCtx, resolvePairingToken ctx ≠ some marker) ∧
      (∀ pre post : List HostVal,
        resolveCands (pre ++ HostVal.str marker :: post) = resolveCands (pre ++ post)) :=
  ⟨parseStringF_ne_marker,
   fun _ => resolveCands_ne_marker _,
   resolveCands_skip_marker⟩

/-! The error/success exclusivity invariant of the page (claim C9). -/

theorem pairDevice_frame (s : UIState) (ctx : ResolveCtx) (dev : Json)
    (ck : CheckRaw) (pr : PairRaw) :
    (pairDevice s ctx dev ck pr).1.scanning = s.scanning ∧
      (pairDevice s ctx dev ck pr).1.scanMethod = s.scanMethod ∧
      (pairDevice s ctx dev ck pr).1.scannerRef = s.scannerRef := by
  simp only [pairDevice]
  refine ⟨?_, ?_, ?_⟩ <;>
    simp [apply_ite (fun p : UIState × PairTrace => p.1.scanning),
      apply_ite (fun p : UIState × PairTrace => p.1.scanMethod),
      apply_ite (fun p : UIState × PairTrace => p.1.scannerRef),
      apply_ite UIState.scanning, apply_ite UIState.scanMethod,
      apply_ite UIState.scannerRef]

theorem pairDevice_inv (s : UIState) (ctx : ResolveCtx) (dev : Json)
    (ck : CheckRaw) (pr : PairRaw) (h : s.success = none) :
    ((pairDevice s ctx dev ck pr).1.success.isSome →
      (pairDevice s ctx dev ck pr).1.error = none) := by
  simp only [pairDevice]
  simp only [apply_ite (fun p : UIState × PairTrace => p.1.success),
    apply_ite (fun p : UIState × PairTrace => p.1.error),
    apply_ite UIState.success, apply_ite UIState.error]
  repeat' split
  all_goals simp_all

theorem stopScanningF_frame (s : UIState) :
    (stopScanningF s).1.error = s.error ∧ (stopScanningF s).1.success = s.success ∧
      (stopScanningF s).1.scanning = false := by
  unfold stopScanningF
  repeat' split
  all_goals simp_all

theorem startScanningF_success (tg cam : Bool) (s : UIState) :
    (startScanningF tg cam s).1.success = s.success := by
  unfold startScanningF
  repeat' split
  all_goals simp_all

theorem handleScannedCodeF_inv (raw : String) (net : NetOracle) (s : UIState)
    (h : s.success = none) :
    ((handleScannedCodeF raw net s).1.success.isSome →
      (handleScannedCodeF raw net s).1.error = none) ∧
      (handleScannedCodeF raw net s).1.scanning = false := by
  unfold handleScannedCodeF
  have hst := stopScanningF_frame s
  cases hd : decodeScanned raw with
  | none =>
    simp only [hd]
    have h1 : (stopScanningF s).1.success = none := by rw [hst.2.1, h]
    constructor
    · intro hsome
      simp [h1] at hsome
    · simpa using hst.2.2
  | some dev =>
    simp only [hd]
    have h1 : (stopScanningF s).1.success = none := by rw [hst.2.1, h]
    constructor
    · exact pairDevice_inv _ net.ctx dev net.ck net.pr h1
    · rw [(pairDevice_frame _ net.ctx dev net.ck net.pr).1, hst.2.2]

theorem inv_init (ctx : ResolveCtx) (u : Bool) : InvES (initState ctx u) := by
  unfold InvES initState
  repeat' split
  all_goals
    simp_all [emptyState, apply_ite UIState.success, apply_ite UIState.error,
      apply_ite UIState.scanning]

theorem inv_step (s : UIState) (e : Ev) (hinv : InvES s) : InvES (stepUI s e).1 := by
  by_cases hen : enabledEv s e = true
  case neg =>
    unfold stepUI
    rw [if_neg hen]
    exact hinv
  case pos =>
  cases e with
  | startScan tg cam =>
    have hred : (stepUI s (Ev.startScan tg cam)).1 = (startScanningF tg cam s).1 := by
      simp [stepUI, hen]
    rw [hred]
    have hsucc : s.success = none := by
      simp [enabledEv] at hen
      exact hen.1
    constructor
    · intro hsome
      rw [startScanningF_success, hsucc] at hsome
      cases hsome
    · intro _
      rw [startScanningF_success, hsucc]
  | cancelScan =>
    have hred : (stepUI s Ev.cancelScan).1 = (stopScanningF s).1 := by
      simp [stepUI, hen]
    rw [hred]
    have hsucc : s.success = none := by
      simp [enabledEv] at hen
      exact hen.1
    have hf := stopScanningF_frame s
    constructor
    · intro hsome
      rw [hf.2.1, hsucc] at hsome
      cases hsome
    · intro _
      rw [hf.2.1, hsucc]
  | scanResult raw net =>
    have hred : (stepUI s (Ev.scanResult raw net)).1 = (scanResultF raw net s).1 := by
      simp [stepUI, hen]
    rw [hred]
    have hscan : s.scanning = true := by
      simpa [enabledEv] using hen
    have hsucc : s.success = none := hinv.2 hscan
    unfold scanResultF
    cases hm : s.scanMethod with
    | none =>
      have hh := handleScannedCodeF_inv raw net s hsucc
      exact ⟨hh.1, fun h2 => by rw [hh.2] at h2; cases h2⟩
    | some m =>
      cases m with
      | telegram =>
        by_cases hraw : raw = ""
        · rw [if_pos hraw]
          constructor
          · intro hsome
            simp only [hsucc] at hsome
            cases hsome
          · intro _
            simpa using hsucc
        · rw [if_neg hraw]
          have hs2 : ({ s with scanning := false, scanMethod := none } : UIState).success = none := hsucc
          have hh := handleScannedCodeF_inv raw net { s with scanning := false, scanMethod := none } hs2
          exact ⟨hh.1, fun h2 => by rw [hh.2] at h2; cases h2⟩
      | html5 =>
        have hh := handleScannedCodeF_inv raw net s hsucc
        exact ⟨hh.1, fun h2 => by rw [hh.2] at h2; cases h2⟩
  | manualEntry input net =>
    have hred : (stepUI s (Ev.manualEntry input net)).1 = (manualEntryF input net s).1 := by
      simp [stepUI, hen]
    rw [hred]
    have hsucc : s.success = none := by
      simp [enabledEv] at hen
      exact hen.1
    have hscan : s.scanning = false := by
      simp [enabledEv] at hen
      exact hen.2.1
    cases input with
    | none =>
      have hred2 : (manualEntryF none net s).1 = s := by simp [manualEntryF]
      rw [hred2]
      exact hinv
    | some d =>
      by_cases hcond : d ≠ "" ∧ jsTrim d ≠ ""
      · have hred2 : (manualEntryF (some d) net s).1 =
            (pairDevice s net.ctx (Json.str (jsTrim d)) net.ck net.pr).1 := by
          simp [manualEntryF, hcond]
        rw [hred2]
        have hfr := pairDevice_frame s net.ctx (.str (jsTrim d)) net.ck net.pr
        constructor
        · exact pairDevice_inv s net.ctx (.str (jsTrim d)) net.ck net.pr hsucc
        · intro h2
          rw [hfr.1, hscan] at h2
          cases h2
      · have hred2 : (manualEntryF (some d) net s).1 = s := by
          simp [manualEntryF, hcond]
        rw [hred2]
        exact hinv
  | ackDone =>
    have hred : (stepUI s Ev.ackDone).1 = { s with success := none } := by
      simp [stepUI, hen]
    rw [hred]
    constructor
    · intro hsome
      simp at hsome
    · intro _
      simp

/-- Every reachable page state satisfies the exclusivity invariant. -/
theorem inv_reach (s : UIState) (h : Reachable s) : InvES s := by
  induction h with
  | init ctx u => exact inv_init ctx u
  | step e hr ih => exact inv_step _ e ih

/-- Claim C9: in every reachable state of the page, the error and success
fields are mutually exclusive — at most one of the two is populated — so
the user never sees both an error and a success (the render additionally
hides the error whenever a success is shown). -/
theorem claim_C9_error_success_exclusive (s : UIState) (h : Reachable s) :
    s.error.isSome = false ∨ s.success.isSome = false := by
  by_cases hs : s.success.isSome = true
  · have hinv := inv_reach s h
    have he := hinv.1 hs
    exact Or.inl (by rw [he]; rfl)
  · exact Or.inr (by simpa using hs)

/-- Witness for C9 at the mount state with no token and no host user. -/
theorem claim_C9_error_success_exclusive_witness :
    (initState ctxEmpty false).error.isSome = false ∨
      (initState ctxEmpty false).success.isSome = false :=
  claim_C9_error_success_exclusive _ (Reachable.init ctxEmpty false)

/-! Verification of the base64 model: decoding inverts encoding. -/

/-- Decoding a base64 digit character recovers the digit. -/
theorem b64idx_b64ch : ∀ n : Nat, n < 64 → b64idx (b64ch n) = some n := by decide

/-- Out-of-range digits map to the last alphabet character. -/
theorem b64ch_ge (n : Nat) (h : 64 ≤ n) : b64ch n = '/' := by
  unfold b64ch
  rw [if_neg (by omega), if_neg (by omega), if_neg (by omega), if_neg (by omega)]

/-- No digit encodes to the padding character. -/
theorem b64ch_ne_eq (n : Nat) : b64ch n ≠ '=' := by
  by_cases h : n < 64
  · have h2 := b64idx_b64ch n h
    intro he
    rw [he] at h2
    have h3 : b64idx '=' = none := by decide
    rw [h3] at h2
    cases h2
  · rw [b64ch_ge n (by omega)]
    decide

/-- Digit characters are in the alphabet. -/
theorem isB64Char_b64ch (n : Nat) : isB64Char (b64ch n) = true := by
  by_cases h : n < 64
  · simp [isB64Char, b64idx_b64ch n h]
  · rw [b64ch_ge n (by omega)]
    decide

/-- btoa peels three bytes into four digits plus the encoding of the rest. -/
theorem btoaBytes_cons3 (a b c : Nat) (rest : List Nat) :
    btoaBytes (a :: b :: c :: rest) =
      b64ch (a / 4) :: b64ch (a % 4 * 16 + b / 16) ::
        b64ch (b % 16 * 4 + c / 64) :: b64ch (c % 64) :: btoaBytes rest := by
  have h1 : btoaCore (a :: b :: c :: rest) =
      b64ch (a / 4) :: b64ch (a % 4 * 16 + b / 16) ::
        b64ch (b % 16 * 4 + c / 64) :: b64ch (c % 64) :: btoaCore rest := rfl
  have hp : btoaPad (a :: b :: c :: rest).length = btoaPad rest.length := by
    unfold btoaPad
    have h2 : (a :: b :: c :: rest).length % 3 = rest.length % 3 := by
      simp [List.length_cons]
      omega
    rw [h2]
  unfold btoaBytes
  rw [h1, hp]
  simp

/-- Digit-group decoding inverts unpadded encoding, byte for byte. -/
theorem b64core_btoaCore :
    ∀ (n : Nat) (bs : List Nat), bs.length ≤ n → (∀ x ∈ bs, x < 256) →
      b64core (btoaCore bs) = some bs := by
  intro n
  induction n with
  | zero =>
    intro bs hlen _
    have : bs = [] := List.eq_nil_of_length_eq_zero (Nat.le_zero.mp hlen)
    subst this
    rfl
  | succ n ih =>
    intro bs hlen hlt
    match bs with
    | [] => rfl
    | [a] =>
      have ha : a < 256 := hlt a (by simp)
      have h1 := b64idx_b64ch (a / 4) (by omega)
      have h2 := b64idx_b64ch (a % 4 * 16) (by omega)
      simp [btoaCore, b64core, h1, h2]
      omega
    | [a, b] =>
      have ha : a < 256 := hlt a (by simp)
      have hb : b < 256 := hlt b (by simp)
      have h1 := b64idx_b64ch (a / 4) (by omega)
      have h2 := b64idx_b64ch (a % 4 * 16 + b / 16) (by omega)
      have h3 := b64idx_b64ch (b % 16 * 4) (by omega)
      simp [btoaCore, b64core, h1, h2, h3]
      constructor <;> omega
    | a :: b :: c :: rest =>
      have ha : a < 256 := hlt a (by simp)
      have hb : b < 256 := hlt b (by simp)
      have hc : c < 256 := hlt c (by simp)
      have h1 := b64idx_b64ch (a / 4) (by omega)
      have h2 := b64idx_b64ch (a % 4 * 16 + b / 16) (by omega)
      have h3 := b64idx_b64ch (b % 16 * 4 + c / 64) (by omega)
      have h4 := b64idx_b64ch (c % 64) (by omega)
      have hrest : b64core (btoaCore rest) = some rest := by
        apply ih rest
        · have h5 := hlen
          simp only [List.length_cons] at h5
          omega
        · intro x hx
          exact hlt x (by simp [hx])
      cases hr : btoaCore rest with
      | nil =>
        rw [hr] at hrest
        simp [btoaCore, hr, b64core, h1, h2, h3, h4]
        cases hrest
        exact ⟨by omega, by omega, by omega, rfl⟩
      | cons y ys =>
        rw [hr] at hrest
        simp [btoaCore, hr, b64core, h1, h2, h3, h4, hrest]
        exact ⟨by omega, by omega, by omega⟩

/-- Every character of an unpadded encoding is a digit character. -/
theorem btoaCore_chars :
    ∀ (n : Nat) (bs : List Nat) (c : Char), bs.length ≤ n → c ∈ btoaCore bs →
      ∃ m, c = b64ch m := by
  intro n
  induction n with
  | zero =>
    intro bs c hlen hc
    have : bs = [] := List.eq_nil_of_length_eq_zero (Nat.le_zero.mp hlen)
    subst this
    cases hc
  | succ n ih =>
    intro bs c hlen hc
    match bs with
    | [] => cases hc
    | [a] =>
      simp [btoaCore] at hc
      rcases hc with h | h <;> exact ⟨_, h⟩
    | [a, b] =>
      simp [btoaCore] at hc
      rcases hc with h | h | h <;> exact ⟨_, h⟩
    | a :: b :: c2 :: rest =>
      have hcore : btoaCore (a :: b :: c2 :: rest) =
          b64ch (a / 4) :: b64ch (a % 4 * 16 + b / 16) ::
            b64ch (b % 16 * 4 + c2 / 64) :: b64ch (c2 % 64) :: btoaCore rest := rfl
      rw [hcore] at hc
      simp at hc
      rcases hc with h | h | h | h | h
      · exact ⟨_, h⟩
      · exact ⟨_, h⟩
      · exact ⟨_, h⟩
      · exact ⟨_, h⟩
      · apply ih rest c _ h
        have h5 := hlen
        simp only [List.length_cons] at h5
        omega

/-- Padding consists of equals signs only. -/
theorem btoaPad_sub (n : Nat) (c : Char) (h : c ∈ btoaPad n) : c = '=' := by
  unfold btoaPad at h
  split at h <;> simp_all

/-- Every character btoa emits is alphabet or padding. -/
theorem btoaBytes_chars (bs : List Nat) (c : Char) (h : c ∈ btoaBytes bs) :
    isB64Char c = true := by
  unfold btoaBytes at h
  rcases List.mem_append.mp h with h2 | h2
  · obtain ⟨m, rfl⟩ := btoaCore_chars bs.length bs c le_rfl h2
    exact isB64Char_b64ch m
  · rw [btoaPad_sub _ _ h2]
    decide

/-- btoa output length is a multiple of four. -/
theorem btoaBytes_len4 :
    ∀ (n : Nat) (bs : List Nat), bs.length ≤ n → (btoaBytes bs).length % 4 = 0 := by
  intro n
  induction n with
  | zero =>
    intro bs hlen
    have : bs = [] := List.eq_nil_of_length_eq_zero (Nat.le_zero.mp hlen)
    subst this
    rfl
  | succ n ih =>
    intro bs hlen
    match bs with
    | [] => rfl
    | [a] => simp [btoaBytes, btoaCore, btoaPad]
    | [a, b] => simp [btoaBytes, btoaCore, btoaPad]
    | a :: b :: c :: rest =>
      rw [btoaBytes_cons3]
      simp only [List.length_cons]
      have h5 := hlen
      simp only [List.length_cons] at h5
      have := ih rest (by omega)
      omega

/-- Stripping trailing equals signs undoes the padding. -/
theorem dropTrailingEq_pad (l : List Char) (n : Nat) (h : ∀ c ∈ l, c ≠ '=') :
    dropTrailingEq (l ++ btoaPad n) = l := by
  unfold btoaPad
  split
  · unfold dropTrailingEq
    rw [List.reverse_append]
    simp
  · unfold dropTrailingEq
    rw [List.reverse_append]
    simp only [List.reverse_cons, List.reverse_nil, List.nil_append, List.singleton_append]
    cases hrev : l.reverse with
    | nil =>
      simp only [List.reverse_nil]
      exact (List.reverse_eq_nil_iff.mp hrev).symm
    | cons c t =>
      have hc : c ∈ l := by
        have h6 : c ∈ l.reverse := by rw [hrev]; exact List.mem_cons_self c t
        simpa using h6
      have hne := h c hc
      simp [hne]
      rw [← List.reverse_reverse l, hrev]
      simp
  · simp only [List.append_nil]
    unfold dropTrailingEq
    cases hrev : l.reverse with
    | nil => rfl
    | cons c t =>
      have hc : c ∈ l := by
        have h6 : c ∈ l.reverse := by rw [hrev]; exact List.mem_cons_self c t
        simpa using h6
      have hne := h c hc
      simp [hne]

/-- Unpadded encodings never have length one modulo four. -/
theorem btoaCore_len_mod :
    ∀ (n : Nat) (bs : List Nat), bs.length ≤ n → (btoaCore bs).length % 4 ≠ 1 := by
  intro n
  induction n with
  | zero =>
    intro bs hlen
    have : bs = [] := List.eq_nil_of_length_eq_zero (Nat.le_zero.mp hlen)
    subst this
    decide
  | succ n ih =>
    intro bs hlen
    match bs with
    | [] => decide
    | [a] => simp [btoaCore]
    | [a, b] => simp [btoaCore]
    | a :: b :: c :: rest =>
      have hcore : btoaCore (a :: b :: c :: rest) =
          b64ch (a / 4) :: b64ch (a % 4 * 16 + b / 16) ::
            b64ch (b % 16 * 4 + c / 64) :: b64ch (c % 64) :: btoaCore rest := rfl
      rw [hcore]
      simp only [List.length_cons]
      have h5 := hlen
      simp only [List.length_cons] at h5
      have := ih rest (by omega)
      omega

/-- Whitespace is never in the alphabet. -/
theorem ws_not_b64 (c : Char) (h : isB64Ws c = true) : isB64Char c = false := by
  simp only [isB64Ws, Bool.or_eq_true, decide_eq_true_eq] at h
  rcases h with ((((h | h) | h) | h) | h) <;> subst h <;> decide

/-- atob inverts btoa on byte lists. -/
theorem atobBytes_btoaBytes (bs : List Nat) (h : ∀ x ∈ bs, x < 256) :
    atobBytes (btoaBytes bs) = some bs := by
  unfold atobBytes
  have hfil : (btoaBytes bs).filter (fun c => ¬ isB64Ws c) = btoaBytes bs := by
    apply List.filter_eq_self.mpr
    intro c hc
    have hb := btoaBytes_chars bs c hc
    by_cases hw : isB64Ws c
    · rw [ws_not_b64 c hw] at hb
      cases hb
    · simpa using hw
  have hlen := btoaBytes_len4 bs.length bs le_rfl
  have hdrop : dropTrailingEq (btoaBytes bs) = btoaCore bs := by
    unfold btoaBytes
    apply dropTrailingEq_pad
    intro c hc
    obtain ⟨m, rfl⟩ := btoaCore_chars bs.length bs c le_rfl hc
    exact b64ch_ne_eq m
  have hmod := btoaCore_len_mod bs.length bs le_rfl
  simp only [hfil, hlen, hdrop]
  simp only [if_true]
  rw [if_neg hmod]
  exact b64core_btoaCore bs.length bs le_rfl h

/-- atob inverts btoa on strings of byte-sized characters. -/
theorem atobStr_btoaStr (s : String) (h : ∀ c ∈ s.data, c.toNat < 256) :
    atobStr (btoaStr s) = some s := by
  unfold atobStr btoaStr
  have hb : atobBytes (btoaBytes (s.data.map Char.toNat)) =
      some (s.data.map Char.toNat) := by
    apply atobBytes_btoaBytes
    intro x hx
    obtain ⟨c, hc, rfl⟩ := List.mem_map.mp hx
    exact h c hc
  rw [hb]
  have h2 : List.map Char.ofNat (List.map Char.toNat s.data) = s.data := by
    rw [List.map_map]
    have h3 : (Char.ofNat ∘ Char.toNat) = id := funext fun c => Char.ofNat_toNat c
    rw [h3, List.map_id]
  show some (String.mk (List.map Char.ofNat (List.map Char.toNat s.data))) = some s
  rw [h2]

/-! Character-class facts used by the resolver analysis. -/

/-- Token characters are printable ASCII. -/
theorem isTokenChar_val (c : Char) (h : isTokenChar c = true) :
    32 ≤ c.toNat ∧ c.toNat < 256 := by
  simp only [isTokenChar, Bool.or_eq_true, decide_eq_true_eq, Char.isAlpha,
    Char.isUpper, Char.isLower, Char.isDigit, Bool.and_eq_true] at h
  rcases h with (((⟨h1, h2⟩ | ⟨h1, h2⟩) | ⟨h1, h2⟩) | h) | h
  · have l1 : 65 ≤ c.toNat := h1
    have l2 : c.toNat ≤ 90 := h2
    omega
  · have l1 : 97 ≤ c.toNat := h1
    have l2 : c.toNat ≤ 122 := h2
    omega
  · have l1 : 48 ≤ c.toNat := h1
    have l2 : c.toNat ≤ 57 := h2
    omega
  · subst h
    decide
  · subst h
    decide

/-- A token character is not a quote, a backslash, whitespace of either
kind, or a control character. -/
theorem isTokenChar_ne (c : Char) (h : isTokenChar c = true) :
    c ≠ '"' ∧ c ≠ '\\' ∧ isJsWs c = false ∧ isJsonWs c = false ∧
      ¬ c.toNat < 32 ∧ c.toNat < 256 := by
  refine ⟨?_, ?_, ?_, ?_, ?_, (isTokenChar_val c h).2⟩
  · intro he
    subst he
    exact absurd h (by decide)
  · intro he
    subst he
    exact absurd h (by decide)
  · cases hb : isJsWs c
    · rfl
    · simp only [isJsWs, Bool.or_eq_true, decide_eq_true_eq] at hb
      rcases hb with ((((hb | hb) | hb) | hb) | hb) | hb <;> subst hb <;>
        exact absurd h (by decide)
  · cases hb : isJsonWs c
    · rfl
    · simp only [isJsonWs, Bool.or_eq_true, decide_eq_true_eq] at hb
      rcases hb with ((hb | hb) | hb) | hb <;> subst hb <;>
        exact absurd h (by decide)
  · have := (isTokenChar_val c h).1
    omega

/-- All characters of a token-shaped string are token characters. -/
theorem tokenShape_all (T : String) (h : tokenShape T = true) :
    ∀ c ∈ T.data, isTokenChar c = true := by
  simp only [tokenShape, Bool.and_eq_true, List.all_eq_true] at h
  intro c hc
  exact h.1.1 c hc

/-- Trimming a whitespace-free list is the identity. -/
theorem jsTrimL_id (l : List Char) (h : ∀ c ∈ l, isJsWs c = false) : jsTrimL l = l := by
  rw [jsTrimL_def]
  have h1 : l.dropWhile isJsWs = l := by
    apply dropWhile_eq_self_of_head?
    intro c hc
    exact h c (List.mem_of_mem_head? hc)
  rw [h1]
  exact List.rdropWhile_eq_self_iff.mpr (fun hl => by simp [h _ (List.getLast_mem hl)])

/-- Quote-stripping a quote-free list is the identity. -/
theorem stripQuotesL_id (l : List Char) (h : ∀ c ∈ l, c ≠ '"') : stripQuotesL l = l := by
  have hdef : stripQuotesL l = List.rdropWhile (· = '"') (l.dropWhile (· = '"')) := rfl
  rw [hdef]
  have h1 : l.dropWhile (· = '"') = l := by
    apply dropWhile_eq_self_of_head?
    intro c hc
    simpa using h c (List.mem_of_mem_head? hc)
  rw [h1]
  exact List.rdropWhile_eq_self_iff.mpr (fun hl => by simp [h _ (List.getLast_mem hl)])

/-- String-level trim identity. -/
theorem jsTrim_id (s : String) (h : ∀ c ∈ s.data, isJsWs c = false) : jsTrim s = s := by
  show String.mk (jsTrimL s.data) = s
  rw [jsTrimL_id _ h]

/-- String-level quote-strip identity. -/
theorem stripQuotes_id (s : String) (h : ∀ c ∈ s.data, c ≠ '"') : stripQuotes s = s := by
  show String.mk (stripQuotesL s.data) = s
  rw [stripQuotesL_id _ h]

/-- parseString accepts any token-shaped string unchanged, at any fuel. -/
theorem parseStringF_token (T : String) (hT : tokenShape T = true) :
    ∀ f : Nat, parseStringF (f + 1) T = some T := by
  have hall := tokenShape_all T hT
  have htr : jsTrim T = T :=
    jsTrim_id _ (fun c hc => (isTokenChar_ne c (hall c hc)).2.2.1)
  have hsq : stripQuotes T = T :=
    stripQuotes_id _ (fun c hc => (isTokenChar_ne c (hall c hc)).1)
  have h2 : tokenShape (stripQuotes (jsTrim T)) = true := by
    rw [htr, hsq]
    exact hT
  intro f
  have h3 := parseStringF_direct T h2 f
  rw [htr, hsq] at h3
  exact h3

/-! JSON.parse on the token blob. -/

/-- Leading JSON whitespace skipping fixes a list with a non-space head. -/
theorem skipWs_cons (c : Char) (l : List Char) (h : isJsonWs c = false) :
    skipWsL (c :: l) = c :: l := by
  unfold skipWsL
  rw [List.dropWhile_cons_of_neg (by simp [h])]

/-- The characters of the token blob. -/
theorem jsonTok_data (T : String) :
    (jsonTok T).data = '\x7b' :: '"' :: 't' :: 'o' :: 'k' :: 'e' :: 'n' :: '"' ::
      ':' :: '"' :: (T.data ++ '"' :: '\x7d' :: []) := by
  unfold jsonTok
  rw [String.data_append, String.data_append]
  rfl

/-- The string-literal parser consumes a run of token characters up to the
closing quote. -/
theorem pStrGo_token (rest : List Char) :
    ∀ (ld acc : List Char), (∀ c ∈ ld, isTokenChar c = true) →
      pStrGo acc (ld ++ '"' :: rest) = some (⟨acc.reverse ++ ld⟩, rest) := by
  intro ld
  induction ld with
  | nil =>
    intro acc h
    simp [pStrGo]
  | cons c ld ih =>
    intro acc h
    have hc := isTokenChar_ne c (h c (List.mem_cons_self c ld))
    have h1 := hc.1
    have h2 := hc.2.1
    have h3 := hc.2.2.2.2.1
    simp only [List.cons_append]
    rw [show pStrGo acc (c :: (ld ++ '"' :: rest)) =
        pStrGo (c :: acc) (ld ++ '"' :: rest) from by
      simp [pStrGo, h1, h2, h3]]
    rw [ih (c :: acc) (fun d hd => h d (List.mem_cons_of_mem c hd))]
    simp

/-- One unfolding of the value parser at an opening brace followed by a
quote, into the member parser. -/
theorem pVal_obj_step (g : Nat) (R2 : List Char) :
    pVal (g + 3) ('\x7b' :: '"' :: R2) =
      (pMembers (g + 2) ('"' :: R2)).map (fun p => (Json.obj p.1, p.2)) := rfl

/-- One unfolding of the member parser on the token key. -/
theorem pMembers_token_step (g : Nat) (T : String) :
    pMembers (g + 2) ('"' :: 't' :: 'o' :: 'k' :: 'e' :: 'n' :: '"' ::
        ':' :: '"' :: (T.data ++ '"' :: '\x7d' :: [])) =
      (match pVal (g + 1) ('"' :: (T.data ++ '"' :: '\x7d' :: [])) with
        | some (v, r4) =>
          (match skipWsL r4 with
            | ',' :: r5 => (pMembers (g + 1) r5).map (fun p => (("token", v) :: p.1, p.2))
            | '\x7d' :: r5 => some ([("token", v)], r5)
            | _ => none)
        | none => none) := rfl

/-- One unfolding of the value parser at a string literal. -/
theorem pVal_str_step (g : Nat) (rest : List Char) :
    pVal (g + 1) ('"' :: rest) = (pStr rest).map (fun p => (Json.str p.1, p.2)) := rfl

/-- The value parser on the token blob yields the token object. -/
theorem pVal_jsonTok (g : Nat) (T : String)
    (hall : ∀ c ∈ T.data, isTokenChar c = true) :
    pVal (g + 3) (jsonTok T).data = some (.obj [("token", Json.str T)], []) := by
  have hstr2 : pStr (T.data ++ '"' :: '\x7d' :: []) = some (T, ['\x7d']) := by
    unfold pStr
    rw [pStrGo_token _ _ _ hall]
    rfl
  rw [jsonTok_data, pVal_obj_step, pMembers_token_step, pVal_str_step, hstr2]
  rfl

/-- JSON.parse on the token blob yields the token object. -/
theorem jsonParse_jsonTok (T : String)
    (hall : ∀ c ∈ T.data, isTokenChar c = true) :
    jsonParse (jsonTok T) = some (.obj [("token", Json.str T)]) := by
  unfold jsonParse
  have hlen : (jsonTok T).data.length + 1 = (T.data.length + 10) + 3 := by
    rw [jsonTok_data]
    simp [List.length_append]
  rw [hlen, pVal_jsonTok _ _ hall]
  rfl

end Pairing

namespace Pairing

theorem isB64Char_ranges (c : Char) (h : isB64Char c = true) :
    (65 ≤ c.toNat ∧ c.toNat ≤ 90) ∨ (97 ≤ c.toNat ∧ c.toNat ≤ 122) ∨
      (48 ≤ c.toNat ∧ c.toNat ≤ 57) ∨ c.toNat = 43 ∨ c.toNat = 47 ∨ c.toNat = 61 := by
  simp only [isB64Char, Bool.or_eq_true, Option.isSome_iff_exists,
    decide_eq_true_eq] at h
  rcases h with ⟨n, hn⟩ | rfl
  · unfold b64idx at hn
    split at hn
    · rename_i hr
      exact Or.inl ⟨hr.1, hr.2⟩
    · split at hn
      · rename_i hr
        exact Or.inr (Or.inl ⟨hr.1, hr.2⟩)
      · split at hn
        · rename_i hr
          exact Or.inr (Or.inr (Or.inl ⟨hr.1, hr.2⟩))
        · split at hn
          · rename_i hr
            subst hr
            exact Or.inr (Or.inr (Or.inr (Or.inl rfl)))
          · split at hn
            · rename_i hr
              subst hr
              exact Or.inr (Or.inr (Or.inr (Or.inr (Or.inl rfl))))
            · cases hn
  · exact Or.inr (Or.inr (Or.inr (Or.inr (Or.inr rfl))))

theorem isB64Char_facts (c : Char) (h : isB64Char c = true) :
    isJsWs c = false ∧ c ≠ '"' ∧ c ≠ ':' ∧ c ≠ '&' := by
  have hv := isB64Char_ranges c h
  refine ⟨?_, ?_, ?_, ?_⟩
  · cases hb : isJsWs c
    · rfl
    · simp only [isJsWs, Bool.or_eq_true, decide_eq_true_eq] at hb
      rcases hb with ((((hb | hb) | hb) | hb) | hb) | hb <;> subst hb <;>
        (revert hv; decide)
  · intro he
    subst he
    revert hv
    decide
  · intro he
    subst he
    revert hv
    decide
  · intro he
    subst he
    revert hv
    decide

theorem takeWhile_all (p : Char → Bool) :
    ∀ l : List Char, (∀ c ∈ l, p c = true) → l.takeWhile p = l := by
  intro l
  induction l with
  | nil => intro _; rfl
  | cons a t ih =>
    intro h
    rw [List.takeWhile_cons_of_pos (h a (List.mem_cons_self a t))]
    rw [ih (fun c hc => h c (List.mem_cons_of_mem a hc))]

theorem splitAmp_no_amp :
    ∀ (l acc : List Char), (∀ c ∈ l, c ≠ '&') → splitAmpGo l acc = [acc.reverse ++ l] := by
  intro l
  induction l with
  | nil =>
    intro acc _
    simp [splitAmpGo]
  | cons a t ih =>
    intro acc h
    have ha := h a (List.mem_cons_self a t)
    rw [show splitAmpGo (a :: t) acc = splitAmpGo t (a :: acc) from by
      simp [splitAmpGo, ha]]
    rw [ih (a :: acc) (fun c hc => h c (List.mem_cons_of_mem a hc))]
    simp

theorem percentDecode_cons_plain (c : Char) (t : List Char)
    (h1 : c ≠ '+') (h2 : c ≠ '%') :
    percentDecode (c :: t) = c :: percentDecodeF (t.length + 1) t := by
  unfold percentDecode
  simp [percentDecodeF, h1, h2, List.length_cons]

end Pairing

namespace Pairing

theorem parseQS_b64 (s : String) (tl : List Char) (hdata : s.data = 'e' :: tl)
    (hch : ∀ c ∈ s.data, isB64Char c = true) :
    ∃ k v, parseQS s = [(k, v)] ∧ (∃ kt, k.data = 'e' :: kt) := by
  unfold parseQS
  rw [hdata]
  have hhead : (('e' : Char) :: tl).head? = some 'e' := rfl
  rw [show (if ('e' :: tl).head? = some '?' then ('e' :: tl).drop 1 else 'e' :: tl) =
      'e' :: tl from by rw [if_neg (by simp [hhead])]]
  have hamp : ∀ c ∈ ('e' : Char) :: tl, c ≠ '&' := by
    intro c hc
    have := isB64Char_facts c (hch c (by rw [hdata]; exact hc))
    exact this.2.2.2
  simp only []
  rw [splitAmp_no_amp _ [] hamp]
  simp only [List.reverse_nil, List.nil_append]
  rw [show List.filterMap (fun p => if p = [] then none else some (qsPair p))
      [('e' : Char) :: tl] = [qsPair ('e' :: tl)] from by simp]
  refine ⟨(qsPair ('e' :: tl)).1, (qsPair ('e' :: tl)).2, by simp, ?_⟩
  unfold qsPair
  have hkey : (('e' : Char) :: tl).takeWhile (· ≠ '=') =
      'e' :: tl.takeWhile (· ≠ '=') := by
    rw [List.takeWhile_cons_of_pos (by decide)]
  rw [hkey]
  simp only []
  rw [percentDecode_cons_plain 'e' _ (by decide) (by decide)]
  exact ⟨_, rfl⟩

theorem qsGet_ne_of_head (ps : List (String × String)) (k0 k v : String)
    (h : ps = [(k, v)]) (hkd : ∃ kt, k.data = 'e' :: kt)
    (hne : ∀ kt : List Char, k0.data ≠ 'e' :: kt) :
    qsGet ps k0 = none := by
  subst h
  unfold qsGet
  obtain ⟨kt, hkt⟩ := hkd
  have : (k = k0) = False := by
    simp only [eq_iff_iff, iff_false]
    intro he
    subst he
    exact hne kt hkt
  simp [List.find?, this]

theorem extract_none_b64 (s : String) (tl : List Char) (hdata : s.data = 'e' :: tl)
    (hch : ∀ c ∈ s.data, isB64Char c = true) :
    extractFromQueryLike s = none := by
  have hurl : tryURLQuery s = none := by
    unfold tryURLQuery
    have hcolon : ∀ c ∈ s.data, (c ≠ ':') = True := by
      intro c hc
      simp [(isB64Char_facts c (hch c hc)).2.2.1]
    have htake : s.data.takeWhile (fun c => c ≠ ':') = s.data := by
      apply takeWhile_all
      intro c hc
      simp [(isB64Char_facts c (hch c hc)).2.2.1]
    rw [if_neg]
    intro hcon
    rw [show s.data.takeWhile (· ≠ ':') = s.data from htake] at hcon
    omega
  obtain ⟨k, v, hps, hkd⟩ := parseQS_b64 s tl hdata hch
  have hg1 : qsGet (parseQS s) "token" = none := by
    apply qsGet_ne_of_head _ _ _ _ hps hkd
    intro kt hkt
    cases hkt
  have hg2 : qsGet (parseQS s) "start_param" = none := by
    apply qsGet_ne_of_head _ _ _ _ hps hkd
    intro kt hkt
    cases hkt
  unfold extractFromQueryLike
  by_cases hg : containsSub s.data "token".data = true ∨
      containsSub s.data "start_param".data = true
  · rw [if_neg (not_not_intro hg)]
    rw [hurl]
    simp [hg1, hg2, jsOr, truthyS]
  · rw [if_pos hg]

end Pairing

namespace Pairing

theorem blob_chars (T : String) (c : Char)
    (h : c ∈ (btoaStr (jsonTok T)).data) : isB64Char c = true := by
  unfold btoaStr at h
  exact btoaBytes_chars _ c h

theorem blob_data (T : String) :
    (btoaStr (jsonTok T)).data =
      'e' :: 'y' :: 'J' :: '0' ::
        btoaBytes (((jsonTok T).data.drop 3).map Char.toNat) := by
  unfold btoaStr
  show btoaBytes ((jsonTok T).data.map Char.toNat) = _
  rw [jsonTok_data]
  rw [show List.map Char.toNat ('\x7b' :: '"' :: 't' :: 'o' :: 'k' :: 'e' :: 'n' :: '"' ::
      ':' :: '"' :: (T.data ++ '"' :: '\x7d' :: [])) =
      123 :: 34 :: 116 :: List.map Char.toNat ('o' :: 'k' :: 'e' :: 'n' :: '"' ::
      ':' :: '"' :: (T.data ++ '"' :: '\x7d' :: [])) from rfl]
  rw [btoaBytes_cons3]
  rw [show b64ch (123 / 4) = 'e' from by decide,
    show b64ch (123 % 4 * 16 + 34 / 16) = 'y' from by decide,
    show b64ch (34 % 16 * 4 + 116 / 64) = 'J' from by decide,
    show b64ch (116 % 64) = '0' from by decide]
  rfl

theorem jsonParse_eyJ0 (s : String) (tl : List Char)
    (hdata : s.data = 'e' :: 'y' :: 'J' :: '0' :: tl) : jsonParse s = none := by
  unfold jsonParse
  rw [hdata]
  rfl

theorem jsonTok_bytes (T : String) (hall : ∀ c ∈ T.data, isTokenChar c = true) :
    ∀ c ∈ (jsonTok T).data, c.toNat < 256 := by
  rw [jsonTok_data]
  intro c hc
  simp only [List.mem_cons, List.mem_append] at hc
  rcases hc with rfl | rfl | rfl | rfl | rfl | rfl | rfl | rfl | rfl | rfl | (h | h)
  · decide
  · decide
  · decide
  · decide
  · decide
  · decide
  · decide
  · decide
  · decide
  · decide
  · exact (isTokenChar_val c (hall c h)).2
  · rcases h with rfl | h
    · decide
    · rcases h with rfl | h
      · decide
      · cases h

/-- parseString on the base64 token blob, when the blob itself is not
token-shaped: the direct accept, query and JSON routes all fail, the
base64 route decodes the blob back to the JSON object, whose token field
is recursively parsed and returned. -/
theorem parseString_blob (T : String) (hT : tokenShape T = true)
    (hshape : tokenShape (btoaStr (jsonTok T)) = false) :
    ∀ f : Nat, parseStringF (f + 2) (btoaStr (jsonTok T)) = some T := by
  intro f
  have hall := tokenShape_all T hT
  have hchars := blob_chars T
  have hdata := blob_data T
  have hne : btoaStr (jsonTok T) ≠ "" := by
    intro he
    have h0 := congrArg List.length hdata
    rw [he] at h0
    simp at h0
  have hnm : btoaStr (jsonTok T) ≠ marker := by
    intro he
    have h0 := congrArg List.head? hdata
    rw [he, List.head?_cons] at h0
    exact absurd h0 (by decide)
  have hjt : jsTrim (btoaStr (jsonTok T)) = btoaStr (jsonTok T) :=
    jsTrim_id _ (fun c hc => (isB64Char_facts c (hchars c hc)).1)
  have hsq : stripQuotes (btoaStr (jsonTok T)) = btoaStr (jsonTok T) :=
    stripQuotes_id _ (fun c hc => (isB64Char_facts c (hchars c hc)).2.1)
  have hacc : acceptIfLooksLikeToken (btoaStr (jsonTok T)) = none := by
    simp only [acceptIfLooksLikeToken]
    rw [hjt, hsq]
    rw [if_neg hne, if_neg hnm]
    simp [hshape]
  have hext : extractFromQueryLike (btoaStr (jsonTok T)) = none :=
    extract_none_b64 _ _ hdata hchars
  have hjpb : jsonParse (btoaStr (jsonTok T)) = none :=
    jsonParse_eyJ0 _ _ hdata
  have hatob : atobStr (btoaStr (jsonTok T)) = some (jsonTok T) :=
    atobStr_btoaStr _ (jsonTok_bytes T hall)
  have hjpt : jsonParse (jsonTok T) = some (.obj [("token", Json.str T)]) :=
    jsonParse_jsonTok T hall
  have hinner : parseStringF (f + 1) T = some T := parseStringF_token T hT f
  unfold parseStringF
  rw [hjt]
  rw [if_neg hne, if_neg (not_or.mpr ⟨hne, hnm⟩)]
  rw [hacc, hext]
  simp only [hjpb, hatob, hjpt, jsTruthyJ, jget]
  simp [hinner]

/-- With the blob as the only host start-parameter, the resolver skips
the two empty location-query candidates and returns the normalization of
the start parameter whenever it is truthy. -/
theorem resolve_ctxStart (s t : String)
    (hnorm : normalizePairingToken (.str s) = some t) (ht : t ≠ "") :
    resolvePairingToken (ctxStart s) = some t := by
  have h1 : optToHV (qsGet (parseQS "") "token") = .undef := by
    rw [show qsGet (parseQS "") "token" = none from by decide]
    rfl
  have h2 : optToHV (qsGet (parseQS "") "start_param") = .undef := by
    rw [show qsGet (parseQS "") "start_param" = none from by decide]
    rfl
  have hnorm2 : parseStringF (s.data.length + 1) s = some t := hnorm
  show resolveCands [optToHV (qsGet (parseQS "") "token"),
      optToHV (qsGet (parseQS "") "start_param"), .str s, .undef, .undef,
      .undef, .str (qsToString (parseQS ""))] = some t
  rw [h1, h2]
  simp only [resolveCands, normalizePairingToken, truthyS, hnorm2]
  simp [ht]

/-- The normalizer on the blob: the blob itself when it happens to be
token-shaped, the inner token otherwise. -/
theorem normalize_blob (T : String) (hT : tokenShape T = true) :
    normalizePairingToken (.str (btoaStr (jsonTok T))) =
      some (if tokenShape (btoaStr (jsonTok T)) = true then btoaStr (jsonTok T)
        else T) := by
  have hlen : 4 ≤ (btoaStr (jsonTok T)).data.length := by
    rw [blob_data]
    simp [List.length_cons]
  show parseStringF ((btoaStr (jsonTok T)).data.length + 1) (btoaStr (jsonTok T)) = _
  by_cases hs : tokenShape (btoaStr (jsonTok T)) = true
  · rw [if_pos hs]
    have hchars := blob_chars T
    have hjt : jsTrim (btoaStr (jsonTok T)) = btoaStr (jsonTok T) :=
      jsTrim_id _ (fun c hc => (isB64Char_facts c (hchars c hc)).1)
    have hsq : stripQuotes (btoaStr (jsonTok T)) = btoaStr (jsonTok T) :=
      stripQuotes_id _ (fun c hc => (isB64Char_facts c (hchars c hc)).2.1)
    have h := parseStringF_direct (btoaStr (jsonTok T))
      (by rw [hjt, hsq]; exact hs) (btoaStr (jsonTok T)).data.length
    rw [hjt, hsq] at h
    exact h
  · rw [if_neg hs]
    have hs2 : tokenShape (btoaStr (jsonTok T)) = false := by
      cases hval : tokenShape (btoaStr (jsonTok T))
      · rfl
      · exact absurd hval hs
    have h := parseString_blob T hT hs2 ((btoaStr (jsonTok T)).data.length - 1)
    rw [show (btoaStr (jsonTok T)).data.length - 1 + 2 =
        (btoaStr (jsonTok T)).data.length + 1 from by omega] at h
    exact h

/-- Counterexample to claim C1: for the token abc123, the base64 blob of
the JSON object is itself token-shaped, so the resolver accepts the blob
directly and returns the base64 string itself, not the inner token. -/
theorem claim_C1_cex :
    btoaStr (jsonTok "abc123") = "eyJ0b2tlbiI6ImFiYzEyMyJ9" ∧
    tokenShape "abc123" = true ∧
    resolvePairingToken (ctxStart "eyJ0b2tlbiI6ImFiYzEyMyJ9") =
      some "eyJ0b2tlbiI6ImFiYzEyMyJ9" ∧
    "eyJ0b2tlbiI6ImFiYzEyMyJ9" ≠ "abc123" := by
  refine ⟨by decide, by decide, ?_, by decide⟩
  decide

/-- Claim C1, amended: for a host start-parameter holding the base64
blob of the JSON object with a token-shaped token T, the resolver
returns the inner token T exactly when the blob itself fails the token
shape; when the blob happens to be token-shaped (no padding, length at
most 128) the blob itself is returned instead. -/
theorem claim_C1_amended (T : String) (hT : tokenShape T = true) :
    resolvePairingToken (ctxStart (btoaStr (jsonTok T))) =
      some (if tokenShape (btoaStr (jsonTok T)) = true then btoaStr (jsonTok T)
        else T) := by
  apply resolve_ctxStart _ _ (normalize_blob T hT)
  by_cases hs : tokenShape (btoaStr (jsonTok T)) = true
  · rw [if_pos hs]
    exact tokenShape_ne_empty hs
  · rw [if_neg hs]
    exact tokenShape_ne_empty hT

/-- Witness for the amended C1: the blob of abc1234 carries base64
padding, fails the shape, and the resolver returns the inner token. -/
theorem claim_C1_amended_witness :
    tokenShape "abc1234" = true ∧
      resolvePairingToken (ctxStart (btoaStr (jsonTok "abc1234"))) =
        some "abc1234" := by
  refine ⟨by decide, ?_⟩
  have h := claim_C1_amended "abc1234" (by decide)
  rw [show tokenShape (btoaStr (jsonTok "abc1234")) = false from by decide] at h
  simpa using h

end Pairing
